import Mathlib

/-!
# Verification of the ruma-api endpoint schema compiler

Shallow embedding of the `ruma_api!` procedural macro core
(`ruma-api-macros/src/api.rs`, `ruma-api-macros/src/api/request.rs`) and of
the behavior of the code it generates, together with proofs settling the
frozen claims about the system.

Conventions:
* `syn::Error` values (which can be combined with `Error::combine`) are
  modelled as a nonempty list of `(message, span)` parts.
* Attribute metas already extracted by `Meta::from_attribute` are modelled by
  the `Meta` inductive; a field's `attrs` list holds exactly its
  `#[ruma_api(...)]` metas (other attributes are invisible to the classifier
  and are dropped from the model).
* Field types are not modelled: in the generated-code semantics every field
  value is a character list (the repository's own test endpoint uses `String`
  for every field).  External serializer crates (`serde_json`,
  `serde_urlencoded`, `percent_encoding`, `url`, `http`) are modelled on the
  fragment of their behavior the generated code exercises for string-typed
  fields, with the canonical output grammar they emit.
-/

namespace RumaApi

/-- An attribute meta as produced by `Meta::from_attribute` in
`ruma-api-macros/src/api/attribute.rs`: either a bare word like
`#[ruma_api(query)]` or a name/value pair like `#[ruma_api(header = NAME)]`. -/
inductive Meta where
  | word (ident : String)
  | nameValue (name : String) (value : String)
deriving DecidableEq, Repr

/-- A raw request field as handed to `TryFrom<RawRequest>`: its identifier and
its `#[ruma_api(...)]` attribute metas (in source order). -/
structure RawField where
  name : String
  attrs : List Meta
deriving DecidableEq, Repr

/-- A span for error reporting, standing in for proc-macro source spans:
`syn::Error::new_spanned` is called on fields, on attributes, on idents and on
the `request` keyword. -/
inductive Span where
  | fieldSpan (name : String)
  | attrSpan (fieldName : String) (m : Meta)
  | identSpan (s : String)
  | kwSpan (s : String)
deriving DecidableEq, Repr

/-- Model of `syn::Error`: a nonempty sequence of `(message, span)` parts;
`Error::combine` appends parts. -/
structure SynError where
  parts : List (String × Span)
deriving DecidableEq, Repr

/-- `syn::Error::combine`. -/
def SynError.combine (e other : SynError) : SynError :=
  ⟨e.parts ++ other.parts⟩

/-- The request field kinds (`RequestFieldKind` in `api/request.rs`). -/
inductive RequestFieldKind where
  | Body
  | Header
  | NewtypeBody
  | Path
  | Query
deriving DecidableEq, Repr

/-- The classified request field (`RequestField` in `api/request.rs`).  The
contained `RawField` keeps its metas in the model; downstream code only ever
reads the field's name. -/
inductive RequestField where
  | body (f : RawField)
  | header (f : RawField) (name : String)
  | newtypeBody (f : RawField)
  | path (f : RawField)
  | query (f : RawField)
deriving DecidableEq, Repr

namespace RequestField

/-- `RequestField::new`.  The source `expect`s the header name to be present
when the kind is `Header`; the model defaults to `""` (the flow below always
supplies it). -/
def new (kind : RequestFieldKind) (field : RawField) (header : Option String) :
    RequestField :=
  match kind with
  | .Body => .body field
  | .Header => .header field (header.getD "")
  | .NewtypeBody => .newtypeBody field
  | .Path => .path field
  | .Query => .query field

/-- `RequestField::kind`. -/
def kind : RequestField → RequestFieldKind
  | .body _ => .Body
  | .header _ _ => .Header
  | .newtypeBody _ => .NewtypeBody
  | .path _ => .Path
  | .query _ => .Query

/-- `RequestField::field`. -/
def field : RequestField → RawField
  | .body f => f
  | .header f _ => f
  | .newtypeBody f => f
  | .path f => f
  | .query f => f

/-- The name of the contained field. -/
def field_name (f : RequestField) : String := f.field.name

/-- `RequestField::is_body`. -/
def is_body (f : RequestField) : Bool := f.kind = .Body

/-- `RequestField::is_header`. -/
def is_header (f : RequestField) : Bool := f.kind = .Header

/-- `RequestField::is_path`. -/
def is_path (f : RequestField) : Bool := f.kind = .Path

/-- `RequestField::is_query`. -/
def is_query (f : RequestField) : Bool := f.kind = .Query

/-- `RequestField::as_body_field`. -/
def as_body_field : RequestField → Option RawField
  | .body f => some f
  | _ => none

/-- `RequestField::as_newtype_body_field`. -/
def as_newtype_body_field : RequestField → Option RawField
  | .newtypeBody f => some f
  | _ => none

/-- `RequestField::as_path_field`. -/
def as_path_field : RequestField → Option RawField
  | .path f => some f
  | _ => none

/-- `RequestField::as_query_field`. -/
def as_query_field : RequestField → Option RawField
  | .query f => some f
  | _ => none

/-- The header name if this is a header field. -/
def header_name : RequestField → Option String
  | .header _ n => some n
  | _ => none

end RequestField

/-- The validated request section (`Request` in `api/request.rs`). -/
structure Request where
  fields : List RequestField
deriving DecidableEq, Repr

namespace Request

/-- `Request::has_body_fields`. -/
def has_body_fields (r : Request) : Bool := r.fields.any RequestField.is_body

/-- `Request::has_header_fields`. -/
def has_header_fields (r : Request) : Bool := r.fields.any RequestField.is_header

/-- `Request::has_path_fields`. -/
def has_path_fields (r : Request) : Bool := r.fields.any RequestField.is_path

/-- `Request::has_query_fields`. -/
def has_query_fields (r : Request) : Bool := r.fields.any RequestField.is_query

/-- `Request::body_fields`. -/
def body_fields (r : Request) : List RawField :=
  r.fields.filterMap RequestField.as_body_field

/-- `Request::path_field_count`. -/
def path_field_count (r : Request) : Nat :=
  (r.fields.filter RequestField.is_path).length

/-- `Request::newtype_body_field`. -/
def newtype_body_field (r : Request) : Option RawField :=
  r.fields.findSome? RequestField.as_newtype_body_field

end Request

/-! ## Field classification (`impl TryFrom<RawRequest> for Request`)

The per-attribute loop body in `TryFrom<RawRequest>` is `classify_step`; the
loop over one field's attributes is a monadic fold.  The mutable
`newtype_body_field` variable shared across the whole field list is threaded
through the state. -/

/-- State of the classification loop for one field: the resolved kind so far,
the header name so far, and the cross-field `newtype_body_field` register. -/
structure ClassifyState where
  field_kind : Option RequestFieldKind
  header : Option String
  newtype_body_field : Option RawField
deriving DecidableEq, Repr

/-- One iteration of the attribute loop in `TryFrom<RawRequest> for Request`
(`api/request.rs`): rejects a second field-kind attribute, resolves bare words
`body` / `path` / `query` (erroring on a duplicate newtype body field), and
resolves `header = NAME` pairs. -/
def classify_step (field : RawField) (st : ClassifyState) (attr : Meta) :
    Except SynError ClassifyState :=
  if st.field_kind.isSome then
    .error ⟨[("There can only be one field kind attribute", .attrSpan field.name attr)]⟩
  else
    match attr with
    | .word ident =>
      if ident = "body" then
        match st.newtype_body_field with
        | some f =>
          .error ⟨[("There can only be one newtype body field", .fieldSpan field.name),
                   ("Previous newtype body field", .fieldSpan f.name)]⟩
        | none =>
          .ok ⟨some .NewtypeBody, st.header, some field⟩
      else if ident = "path" then
        .ok ⟨some .Path, st.header, st.newtype_body_field⟩
      else if ident = "query" then
        .ok ⟨some .Query, st.header, st.newtype_body_field⟩
      else
        .error ⟨[("Invalid #[ruma_api] argument, expected one of `body`, `path`, `query`",
                  .identSpan ident)]⟩
    | .nameValue name value =>
      if name ≠ "header" then
        .error ⟨[("Invalid #[ruma_api] argument with value, expected `header`",
                  .identSpan name)]⟩
      else
        .ok ⟨some .Header, some value, st.newtype_body_field⟩

/-- Classification of a single raw field, given the current
`newtype_body_field` register: runs the attribute loop and then builds the
`RequestField` with kind defaulting to `Body`. -/
def classify_field (nb : Option RawField) (field : RawField) :
    Except SynError (RequestField × Option RawField) := do
  let st ← field.attrs.foldlM (classify_step field) ⟨none, none, nb⟩
  .ok (RequestField.new (st.field_kind.getD .Body) field st.header, st.newtype_body_field)

/-- Classification of the whole field list.  The source maps a fallible
closure over the fields and collects into `syn::Result<Vec<_>>`, which stops
at the first error. -/
def classify_fields (nb : Option RawField) :
    List RawField → Except SynError (List RequestField × Option RawField)
  | [] => .ok ([], nb)
  | f :: fs => do
    let (rf, nb') ← classify_field nb f
    let (rfs, nb'') ← classify_fields nb' fs
    .ok (rf :: rfs, nb'')

/-- `impl TryFrom<RawRequest> for Request`: classify every field (first error
wins), then reject the combination of a newtype body field with regular body
fields. -/
def request_try_from (raw : List RawField) : Except SynError Request := do
  let (fields, nb) ← classify_fields none raw
  if nb.isSome && fields.any RequestField.is_body then
    .error ⟨[("Can't have both a newtype body field and regular body fields",
              .kwSpan "request")]⟩
  else
    .ok ⟨fields⟩

/-- The fixed message of the GET/body violation error. -/
def getBodyMsg : String := "GET endpoints can't have body fields"

/-- `impl TryFrom<RawApi> for Api`, restricted to the method string and the
request section (the metadata and response sections are converted first in
the source and are independent of this check): after the request section
converts successfully, a GET method with body fields or a newtype body field
yields one combined error with one part per offending body field, plus one
part for the newtype body field if present. -/
def api_try_from (method : String) (raw_request : List RawField) :
    Except SynError Request := do
  let request ← request_try_from raw_request
  let ntf := request.newtype_body_field
  if method = "GET" && (request.has_body_fields || ntf.isSome) then
    .error ⟨request.body_fields.map (fun f => (getBodyMsg, Span.fieldSpan f.name)) ++
      (match ntf with
       | some f => [(getBodyMsg, Span.fieldSpan f.name)]
       | none => [])⟩
  else
    .ok request

/-! ## The path assertions in `impl ToTokens for Api`

Code generation asserts, only in the branch taken when the request has path
fields, that the path template starts with `/` and that the number of `:`
characters in it equals the number of path fields.  A failed `assert!` aborts
the proc macro, i.e. fails the build. -/

/-- Number of `:` characters in the path template
(`path_str.chars().filter(|c| *c == ':').count()`). -/
def placeholder_count (path : String) : Nat :=
  (path.data.filter (fun c => c = ':')).length

/-- `path_str.starts_with('/')`. -/
def starts_with_slash (path : String) : Bool :=
  match path.data with
  | c :: _ => c = '/'
  | [] => false

/-- The two `assert!`s guarding path generation in `impl ToTokens for Api`.
They run only when the request has path fields; with no path fields the
generator takes the `url.set_path(metadata.path)` branch and performs no
check. -/
def path_assertions (request : Request) (path : String) : Except String Unit :=
  if request.has_path_fields then
    if ¬ starts_with_slash path then
      .error "path needs to start with '/'"
    else if placeholder_count path ≠ request.path_field_count then
      .error "number of declared path parameters needs to match amount of placeholders in path"
    else
      .ok ()
  else
    .ok ()

/-- End-to-end compile of one endpoint description (method, path template,
request field list): section conversion (`TryFrom<RawApi>`) followed by the
code-generation-time path assertions.  Any error means no artifact is
emitted. -/
def compile_api (method : String) (path : String) (raw_request : List RawField) :
    Except SynError Request := do
  let api ← api_try_from method raw_request
  match path_assertions api path with
  | .ok () => .ok api
  | .error msg => .error ⟨[(msg, .kwSpan "path")]⟩

/-! ## Percent / form encoding

Model of the `percent_encoding` crate as used by `url`'s
`PathSegmentsMut::push` (escape set `PATH_SEGMENT_ENCODE_SET`) and of
`serde_urlencoded`'s percent layer (form-urlencoded byte serialization, which
keeps only alphanumerics and `*-._` and writes space as `+`).  Characters are
treated as bytes; the round-trip theorems assume ASCII values, where the
byte-level and character-level views agree. -/

/-- Uppercase hex digit for a nibble. -/
def hexDigitChar (n : Nat) : Char :=
  if n < 10 then Char.ofNat (48 + n) else Char.ofNat (55 + n)

/-- Value of a hex digit character, upper or lower case. -/
def hexVal (c : Char) : Option Nat :=
  if 48 ≤ c.toNat ∧ c.toNat ≤ 57 then some (c.toNat - 48)
  else if 65 ≤ c.toNat ∧ c.toNat ≤ 70 then some (c.toNat - 55)
  else if 97 ≤ c.toNat ∧ c.toNat ≤ 102 then some (c.toNat - 87)
  else none

/-- One character of percent-style encoding: `plusSpace` selects the
form-urlencoded space-to-`+` rule; `keep` is the set of characters written
verbatim; everything else becomes `%XY`. -/
def escEncodeChar (plusSpace : Bool) (keep : Char → Bool) (c : Char) : List Char :=
  if plusSpace && c = ' ' then ['+']
  else if keep c then [c]
  else ['%', hexDigitChar (c.toNat / 16), hexDigitChar (c.toNat % 16)]

/-- Percent-style encoding of a character list. -/
def escEncode (plusSpace : Bool) (keep : Char → Bool) (s : List Char) : List Char :=
  s.flatMap (escEncodeChar plusSpace keep)

/-- Percent-style decoding: `%XY` with valid hex digits becomes the byte
`XY`; an ill-formed `%` is kept verbatim (as `percent_decode` does); with
`plusSpace`, `+` becomes a space. -/
def escDecode (plusSpace : Bool) : List Char → List Char
  | [] => []
  | c :: rest =>
    if c = '%' then
      match rest with
      | h :: l :: rest' =>
        match hexVal h, hexVal l with
        | some a, some b => Char.ofNat (16 * a + b) :: escDecode plusSpace rest'
        | _, _ => '%' :: escDecode plusSpace (h :: l :: rest')
      | [h] => '%' :: escDecode plusSpace [h]
      | [] => ['%']
    else if plusSpace && c = '+' then ' ' :: escDecode plusSpace rest
    else c :: escDecode plusSpace rest

/-- The characters `url`'s `PATH_SEGMENT_ENCODE_SET` leaves verbatim: visible
ASCII except space, `"`, `#`, `<`, `>`, backtick, `?`, the two curly
brackets, `%` and `/`. -/
def pathSegmentKeep (c : Char) : Bool :=
  32 ≤ c.toNat && c.toNat ≤ 126 &&
    !(c ∈ [' ', '"', '#', '<', '>', Char.ofNat 96, '?',
           Char.ofNat 123, Char.ofNat 125, '%', '/'])

/-- The characters form-urlencoded byte serialization leaves verbatim:
alphanumerics and `*`, `-`, `.`, `_`. -/
def formUrlKeep (c : Char) : Bool :=
  c.isAlphanum || c ∈ ['*', '-', '.', '_']

/-! ## Splitting and joining on a separator (Rust `str::split` semantics) -/

/-- `str::split(sep)` on a character list: always returns at least one piece;
`[]` splits to `[[]]`. -/
def splitOnChar (sep : Char) : List Char → List (List Char)
  | [] => [[]]
  | c :: rest =>
    let r := splitOnChar sep rest
    if c = sep then [] :: r
    else (c :: r.headD []) :: r.tail

/-- Join pieces with a separator character (inverse of `splitOnChar` on
separator-free pieces). -/
def joinSep (sep : Char) : List (List Char) → List Char
  | [] => []
  | [x] => x
  | x :: y :: ys => x ++ sep :: joinSep sep (y :: ys)

/-- Split at the first occurrence of a separator: returns the part before it
and, when the separator occurs, the part after it. -/
def splitFirst (sep : Char) : List Char → List Char × Option (List Char)
  | [] => ([], none)
  | c :: rest =>
    if c = sep then ([], some rest)
    else
      let (a, b) := splitFirst sep rest
      (c :: a, b)

/-! ## JSON for string-field records

`serde_json::to_vec` on a derived struct whose fields are strings prints the
canonical object `{"k":"v",...}` with no whitespace; on a newtype struct over
a string it prints the bare JSON string.  The parsers below accept exactly
that canonical grammar (the round-trip hypotheses keep values free of `"` and
`\`, where `serde_json`'s escaping is the identity). -/

/-- Opening curly bracket character. -/
def lcub : Char := Char.ofNat 123

/-- Closing curly bracket character. -/
def rcub : Char := Char.ofNat 125

/-- Print a JSON string literal (no escaping; values are assumed free of `"`
and `\`). -/
def printJsonString (s : List Char) : List Char :=
  '"' :: s ++ ['"']

/-- Print the items of a JSON object of string fields, including the closing
bracket. -/
def printObjItems : List (String × List Char) → List Char
  | [] => [rcub]
  | [(k, v)] => printJsonString k.data ++ ':' :: printJsonString v ++ [rcub]
  | (k, v) :: p :: ps =>
    printJsonString k.data ++ ':' :: printJsonString v ++ ',' :: printObjItems (p :: ps)

/-- Print a JSON object of string fields. -/
def printJsonObj (pairs : List (String × List Char)) : List Char :=
  lcub :: printObjItems pairs

/-- Parse the body of a JSON string literal up to the closing quote,
returning content and remainder. -/
def parseStringBody : List Char → Option (List Char × List Char)
  | [] => none
  | c :: rest =>
    if c = '"' then some ([], rest)
    else
      match parseStringBody rest with
      | some (s, r) => some (c :: s, r)
      | none => none

/-- Parse a JSON string literal (expects a leading quote). -/
def parseJsonString : List Char → Option (List Char × List Char)
  | [] => none
  | c :: rest => if c = '"' then parseStringBody rest else none

/-- Parse the items of a canonical JSON object of string fields, consuming the
closing bracket; fuelled to make recursion structural. -/
def parseObjItems : Nat → List Char → Option (List (String × List Char) × List Char)
  | 0, _ => none
  | fuel + 1, s =>
    match parseJsonString s with
    | none => none
    | some (k, s1) =>
      match s1 with
      | c :: s2 =>
        if c = ':' then
          match parseJsonString s2 with
          | none => none
          | some (v, s3) =>
            match s3 with
            | d :: s4 =>
              if d = ',' then
                match parseObjItems fuel s4 with
                | some (ps, r) => some ((String.mk k, v) :: ps, r)
                | none => none
              else if d = rcub then some ([(String.mk k, v)], s4)
              else none
            | [] => none
        else none
      | [] => none

/-- Parse a whole canonical JSON object of string fields (no trailing data
allowed, as `serde_json::from_slice` requires). -/
def parseJsonObj (s : List Char) : Option (List (String × List Char)) :=
  match s with
  | [] => none
  | c :: rest =>
    if c = lcub then
      match rest with
      | [] => none
      | c2 :: r2 =>
        if c2 = rcub then (if r2 = [] then some [] else none)
        else
          match parseObjItems s.length rest with
          | some (ps, []) => some ps
          | _ => none
    else none

/-- Parse a whole JSON string literal (newtype body deserialization; no
trailing data allowed). -/
def parseJsonNewtype (s : List Char) : Option (List Char) :=
  match parseJsonString s with
  | some (v, []) => some v
  | _ => none

/-! ## The generated codecs

The code emitted by `impl ToTokens for Api` is modelled as four functions over
concrete wire envelopes.  A structured `Request` (resp. `Response`) value is an
assignment of a character-list value to each schema field, in declaration
order (a Rust struct value is exactly its named-field assignment). -/

/-- A structured request or response value: one value per schema field, in
declaration order. -/
abbrev Assignment := List (String × List Char)

/-- Field access `request.#field_name` on a structured value. -/
def lookupVal (v : Assignment) (name : String) : List Char :=
  ((v.find? (fun p => p.1 = name)).map (fun p => p.2)).getD []

/-- A raw HTTP request envelope (`http::Request<Vec<u8>>` plus the `url`
pieces the generated code reads/writes).  Header values are character lists
standing for bytes. -/
structure HttpRequest where
  method : String
  path : List Char
  query : Option (List Char)
  headers : List (String × List Char)
  body : List Char
deriving DecidableEq, Repr

/-- A raw HTTP response envelope (`http::Response<Vec<u8>>`). -/
structure HttpResponse where
  status : Nat
  headers : List (String × List Char)
  body : List Char
deriving DecidableEq, Repr

/-- Errors raised by the generated codecs (`ruma_api::Error` causes).
`missingField` is the request side's serde-style error; `missingHeader` and
`headerParse` are the response side's spec §4.5 header errors. -/
inductive ApiError where
  | httpStatus (code : Nat)
  | bodyDeserialize
  | queryDecode
  | pathDecode
  | missingField (name : String)
  | missingHeader (name : String)
  | headerParse (name : String)
deriving DecidableEq, Repr

/-- The segments of the path template after the leading `/`
(`path_str[1..].split('/')`). -/
def template_segments (path : String) : List (List Char) :=
  splitOnChar '/' (path.data.drop 1)

/-- The placeholder positions of the template: index and name of each segment
starting with `:`. -/
def placeholder_positions (path : String) : List (Nat × String) :=
  (template_segments path).enum.filterMap (fun p =>
    match p.2 with
    | c :: rest => if c = ':' then some (p.1, String.mk rest) else none
    | [] => none)

/-- Encoding of one pushed path segment (`url::PathSegmentsMut::push`
percent-encodes with the path-segment escape set): placeholder segments push
the same-named field's value, literal segments push themselves. -/
def encode_path_segment (v : Assignment) (seg : List Char) : List Char :=
  match seg with
  | c :: rest =>
    if c = ':' then escEncode false pathSegmentKeep (lookupVal v (String.mk rest))
    else escEncode false pathSegmentKeep seg
  | [] => []

/-- The request path produced by `set_request_path`: with path fields, the
template's segments are pushed one by one (placeholders replaced by the
field's value); with no path fields, `url.set_path(metadata.path)` uses the
template verbatim. -/
def encode_path (schema : Request) (path : String) (v : Assignment) : List Char :=
  if schema.has_path_fields then
    '/' :: joinSep '/' ((template_segments path).map (encode_path_segment v))
  else
    path.data

/-- `serde_urlencoded::to_string` on the synthetic `RequestQuery` struct of
string fields: `k1=v1&k2=v2` with form-urlencoded escaping. -/
def form_encode (pairs : List (String × List Char)) : List Char :=
  joinSep '&' (pairs.map (fun p =>
    escEncode true formUrlKeep p.1.data ++ '=' :: escEncode true formUrlKeep p.2))

/-- `serde_urlencoded::from_str` / `form_urlencoded::parse` pair extraction:
split on `&`, split each piece at the first `=` (missing value reads as
empty), percent+plus-decode both sides.  The empty string yields no pairs. -/
def form_decode (q : List Char) : List (String × List Char) :=
  if q = [] then []
  else
    (splitOnChar '&' q).map (fun piece =>
      let (k, rest) := splitFirst '=' piece
      (String.mk (escDecode true k), escDecode true (rest.getD [])))

/-- `impl TryFrom<Request> for http::Request<Vec<u8>>`: build path and query
on the url, create the request with the serialized body (newtype body, body
aggregate, or empty `Vec::new()`), set the method, then append one header per
header field.  No content-type header is set on requests. -/
def encode_request (schema : Request) (path : String) (method : String)
    (v : Assignment) : HttpRequest :=
  { method := method
    path := encode_path schema path v
    query :=
      if schema.has_query_fields then
        some (form_encode (schema.fields.filterMap (fun f =>
          f.as_query_field.map (fun rf => (rf.name, lookupVal v rf.name)))))
      else none
    headers := schema.fields.filterMap (fun f =>
      match f with
      | .header rf name => some (name, lookupVal v rf.name)
      | _ => none)
    body :=
      match schema.newtype_body_field with
      | some rf => printJsonString (lookupVal v rf.name)
      | none =>
        if schema.has_body_fields then
          printJsonObj (schema.fields.filterMap (fun f =>
            f.as_body_field.map (fun rf => (rf.name, lookupVal v rf.name))))
        else [] }

/-- `http::HeaderValue::to_str` accepts only visible ASCII (32–126) and tab. -/
def visibleAscii (c : Char) : Bool :=
  (32 ≤ c.toNat && c.toNat < 127) || c.toNat = 9

/-- `HeaderValue::to_str().ok()` on a raw header value. -/
def header_to_str (v : List Char) : Option String :=
  if v.all visibleAscii then some (String.mk v) else none

/-- The generated header extraction
`headers.get(NAME).and_then(|v| v.to_str().ok()).ok_or(missing_field(NAME))?.to_owned()`
(`Request::parse_headers_from_request`): absence and a value that fails
string conversion produce the same missing-field error; a convertible value
is taken verbatim as an owned string. -/
def parse_header_field (headers : List (String × List Char)) (name : String) :
    Except ApiError String :=
  match (headers.find? (fun p => p.1 = name)).bind (fun p => header_to_str p.2) with
  | some s => .ok s
  | none => .error (.missingField name)

/-- The parsed request body, per body mode. -/
inductive BodyParsed where
  | empty
  | newtype (v : List Char)
  | obj (pairs : List (String × List Char))
deriving DecidableEq, Repr

/-- `extract_request_body`: with a newtype body field the whole payload is
deserialized into the field's type; with body fields it is deserialized into
the synthetic `RequestBody` struct; otherwise the payload is not read. -/
def decode_request_body (schema : Request) (b : List Char) :
    Except ApiError BodyParsed :=
  match schema.newtype_body_field with
  | some _ =>
    match parseJsonNewtype b with
    | some val => .ok (.newtype val)
    | none => .error .bodyDeserialize
  | none =>
    if schema.has_body_fields then
      match parseJsonObj b with
      | some ps => .ok (.obj ps)
      | none => .error .bodyDeserialize
    else .ok .empty

/-- Decoding of one request field in the generated
`TryFrom<http::Request>`: path fields take the percent-decoded segment at
their placeholder's template position, query fields their entry of the parsed
query string, header fields the converted header value, body fields their
entry of the parsed body object, the newtype body field the whole parsed
body. -/
def decode_request_field (path : String) (segs : List (List Char))
    (qpairs : List (String × List Char)) (headers : List (String × List Char))
    (body : BodyParsed) (f : RequestField) : Except ApiError (String × List Char) :=
  match f with
  | .path rf =>
    match (placeholder_positions path).find? (fun p => p.2 = rf.name) with
    | some (i, _) =>
      match segs.get? i with
      | some seg => .ok (rf.name, escDecode false seg)
      | none => .error .pathDecode
    | none => .error .pathDecode
  | .query rf =>
    match qpairs.find? (fun p => p.1 = rf.name) with
    | some p => .ok (rf.name, p.2)
    | none => .error .queryDecode
  | .header rf name => (parse_header_field headers name).map (fun s => (rf.name, s.data))
  | .body rf =>
    match body with
    | .obj ps =>
      match ps.find? (fun p => p.1 = rf.name) with
      | some p => .ok (rf.name, p.2)
      | none => .error .bodyDeserialize
    | _ => .error .bodyDeserialize
  | .newtypeBody rf =>
    match body with
    | .newtype val => .ok (rf.name, val)
    | _ => .error .bodyDeserialize

/-- `impl TryFrom<http::Request<Vec<u8>>> for Request`: split the path after
the leading `/`, parse the query string (`unwrap_or("")`), parse the body per
the body mode, then initialize every schema field from its wire
destination. -/
def decode_request (schema : Request) (path : String) (hr : HttpRequest) :
    Except ApiError Assignment := do
  let segs := splitOnChar '/' (hr.path.drop 1)
  let qpairs := form_decode (hr.query.getD [])
  let body ← decode_request_body schema hr.body
  schema.fields.mapM (decode_request_field path segs qpairs hr.headers body)

/-! ## The response side

The modern `api/response.rs` module is not present under `src/` (only an
older, incompatible revision of it is); `api.rs` drives it through
`has_body_fields`, `has_header_fields`, `apply_header_fields`, `to_body` and
`init_fields`. -/

/-- Modelled from the spec: the response field model of the missing
`api/response.rs` module — each response field is an aggregate body field, a
header field keyed by a header name, or the newtype body field (spec §2
Field Classifier, §3 Kind, §4.5 Header Codec, §4.6 Body Codec: response
schemas carry the same `NewtypeBody` kind as request schemas, invariants
1–2). -/
inductive ResponseField where
  | body (f : RawField)
  | header (f : RawField) (name : String)
  | newtypeBody (f : RawField)
deriving DecidableEq, Repr

/-- The name of the contained response field. -/
def ResponseField.field_name : ResponseField → String
  | .body f => f.name
  | .header f _ => f.name
  | .newtypeBody f => f.name

/-- `ResponseField::is_body` (aggregate body fields only, mirroring the
request side where the newtype body field is tracked separately). -/
def ResponseField.is_body : ResponseField → Bool
  | .body _ => true
  | _ => false

/-- Whether this response field is the newtype body field. -/
def ResponseField.is_newtype_body : ResponseField → Bool
  | .newtypeBody _ => true
  | _ => false

/-- Modelled from the spec: the validated response section of the missing
`api/response.rs` module (an ordered field list, spec §3). -/
structure ResponseSchema where
  fields : List ResponseField
deriving DecidableEq, Repr

/-- `Response::has_body_fields`: whether any aggregate body field exists. -/
def ResponseSchema.has_body_fields (r : ResponseSchema) : Bool :=
  r.fields.any ResponseField.is_body

/-- The response schema's newtype body field, mirroring
`Request::newtype_body_field` (spec §4.6 newtype mode). -/
def ResponseSchema.newtype_body_field (r : ResponseSchema) : Option RawField :=
  r.fields.findSome? (fun f =>
    match f with
    | ResponseField.newtypeBody rf => some rf
    | _ => none)

/-- Modelled from the spec: the missing `Response::has_body` — per §4.6 the
body is empty exactly when no Body-kind and no NewtypeBody field exists. -/
def ResponseSchema.has_body (r : ResponseSchema) : Bool :=
  r.has_body_fields || r.newtype_body_field.isSome

/-- The serialization of the empty JSON object, the payload `api.rs` emits
for responses with no body (`"{}".as_bytes().to_vec()`). -/
def emptyObjChars : List Char := [lcub, rcub]

/-- `impl TryFrom<Response> for http::Response<Vec<u8>>`: the builder first
sets the content-type header to `application/json`, then applies the header
fields, and the body is the serialized payload — the newtype body field's
value alone (spec §4.6 newtype mode), the `ResponseBody` aggregate, or the
`"{}"` bytes when the response has no body.  The builder's default status
is 200. -/
def encode_response (schema : ResponseSchema) (w : Assignment) : HttpResponse :=
  { status := 200
    headers := ("CONTENT_TYPE", "application/json".data) ::
      schema.fields.filterMap (fun f =>
        match f with
        | .header rf name => some (name, lookupVal w rf.name)
        | _ => none)
    body :=
      match schema.newtype_body_field with
      | some rf => printJsonString (lookupVal w rf.name)
      | none =>
        if schema.has_body_fields then
          printJsonObj (schema.fields.filterMap (fun f =>
            match f with
            | .body rf => some (rf.name, lookupVal w rf.name)
            | _ => none))
        else emptyObjChars }

/-- `http::StatusCode::is_success`: 200–299. -/
def is_success (status : Nat) : Bool :=
  200 ≤ status && status < 300

/-- Modelled from the spec: body deserialization of the missing response
module, per §4.6's three modes — the whole payload into the newtype body
field's type, the `ResponseBody` aggregate object, or nothing at all in the
Empty mode (the payload is ignored). -/
def decode_response_body (schema : ResponseSchema) (b : List Char) :
    Except ApiError BodyParsed :=
  match schema.newtype_body_field with
  | some _ =>
    match parseJsonNewtype b with
    | some val => .ok (.newtype val)
    | none => .error .bodyDeserialize
  | none =>
    if schema.has_body_fields then
      match parseJsonObj b with
      | some ps => .ok (.obj ps)
      | none => .error .bodyDeserialize
    else .ok .empty

/-- Decoding of one response field on success: aggregate body fields take
their entry of the parsed body object, the newtype body field the whole
parsed payload, and header fields look up their header name — absence is a
MissingHeader error naming the header, a value that fails string conversion
a HeaderParseError (spec §4.5). -/
def decode_response_field (body : BodyParsed)
    (headers : List (String × List Char)) (f : ResponseField) :
    Except ApiError (String × List Char) :=
  match f with
  | .body rf =>
    match body with
    | .obj ps =>
      match ps.find? (fun p => p.1 = rf.name) with
      | some p => Except.ok (rf.name, p.2)
      | none => Except.error ApiError.bodyDeserialize
    | _ => Except.error ApiError.bodyDeserialize
  | .newtypeBody rf =>
    match body with
    | .newtype val => Except.ok (rf.name, val)
    | _ => Except.error ApiError.bodyDeserialize
  | .header rf name =>
    match headers.find? (fun p => p.1 = name) with
    | none => Except.error (ApiError.missingHeader name)
    | some p =>
      match header_to_str p.2 with
      | some s => Except.ok (rf.name, s.data)
      | none => Except.error (ApiError.headerParse name)

/-- `impl TryFrom<http::Response<Vec<u8>>> for Response`: a non-success
status short-circuits into an error carrying the status code, before any
header or body processing; on success the body is deserialized (per the
active body mode) and the fields are initialized from body and headers. -/
def decode_response (schema : ResponseSchema) (hr : HttpResponse) :
    Except ApiError Assignment :=
  if is_success hr.status then
    Except.bind (decode_response_body schema hr.body)
      (fun body => schema.fields.mapM (decode_response_field body hr.headers))
  else
    .error (.httpStatus hr.status)

/-! ## Cleanliness predicates for the round-trip law

The round-trip law is stated for values free of reserved characters: ASCII
throughout (percent escaping is modelled at the byte level), visible ASCII for
header values (`HeaderValue` conversion), and free of `"`/`\` where the value
or name lands in JSON (where `serde_json` escaping is the identity). -/

/-- All characters ASCII. -/
def asciiClean (s : List Char) : Bool := s.all (fun c => c.toNat < 128)

/-- Free of the JSON string delimiters `"` and `\`. -/
def jsonClean (s : List Char) : Bool := s.all (fun c => c ≠ '"' && c ≠ '\\')

/-- Cleanliness required of one request field's value, by kind. -/
def field_value_clean (f : RequestField) (w : List Char) : Bool :=
  asciiClean w &&
    (match f with
     | .header _ _ => w.all visibleAscii
     | .body _ => jsonClean w
     | .newtypeBody _ => jsonClean w
     | _ => true)

/-- Cleanliness required of a field name: ASCII and JSON-safe. -/
def name_clean (n : String) : Bool := asciiClean n.data && jsonClean n.data

/-- Well-formed body mode (invariants 1–2 of the spec, enforced by
`request_try_from`): no newtype body field next to regular body fields, and
at most one newtype body field. -/
def body_mode_ok (schema : Request) : Bool :=
  !(schema.newtype_body_field.isSome && schema.has_body_fields) &&
    decide ((schema.fields.filter (fun f => f.kind = .NewtypeBody)).length ≤ 1)

/-- The structured request value assigning `val f` to each field `f`, in
declaration order. -/
def request_value (schema : Request) (val : String → List Char) : Assignment :=
  schema.fields.map (fun f => (f.field_name, val f.field_name))

/-- Cleanliness required of one response field's value, by kind. -/
def resp_value_clean (f : ResponseField) (w : List Char) : Bool :=
  asciiClean w &&
    (match f with
     | .header _ _ => w.all visibleAscii
     | .body _ => jsonClean w
     | .newtypeBody _ => jsonClean w)

/-- Well-formed response body mode (spec §3 invariants 1–2 apply to the
Response schema as well): no newtype body field next to aggregate body
fields, and at most one newtype body field. -/
def resp_body_mode_ok (schema : ResponseSchema) : Bool :=
  !(schema.newtype_body_field.isSome && schema.has_body_fields) &&
    decide ((schema.fields.filter ResponseField.is_newtype_body).length ≤ 1)

/-- The header name of a response field, if any. -/
def ResponseField.header_name : ResponseField → Option String
  | .header _ n => some n
  | _ => none

/-- The structured response value assigning `val f` to each field `f`. -/
def response_value (schema : ResponseSchema) (val : String → List Char) : Assignment :=
  schema.fields.map (fun f => (f.field_name, val f.field_name))

/-! ## Lemmas: percent / form escaping round-trips -/

theorem hexVal_hexDigitChar {n : Nat} (h : n < 16) :
    hexVal (hexDigitChar n) = some n := by
  interval_cases n <;> rfl

theorem hexDigitChar_ne {n : Nat} (h : n < 16) {c : Char}
    (hc : c.toNat < 48 ∨ (57 < c.toNat ∧ c.toNat < 65) ∨ 70 < c.toNat) :
    hexDigitChar n ≠ c := by
  interval_cases n <;>
    · intro he
      rw [← he] at hc
      revert hc
      decide

theorem escEncodeChar_space {keep : Char → Bool} :
    escEncodeChar true keep ' ' = ['+'] := by
  simp [escEncodeChar]

theorem escEncodeChar_keep {plusSpace : Bool} {keep : Char → Bool} {c : Char}
    (hk : keep c = true) (hsp : ¬(plusSpace = true ∧ c = ' ')) :
    escEncodeChar plusSpace keep c = [c] := by
  cases plusSpace <;> by_cases hc : c = ' ' <;> simp_all [escEncodeChar]

theorem escEncodeChar_esc {plusSpace : Bool} {keep : Char → Bool} {c : Char}
    (hk : keep c = false) (hsp : ¬(plusSpace = true ∧ c = ' ')) :
    escEncodeChar plusSpace keep c =
      ['%', hexDigitChar (c.toNat / 16), hexDigitChar (c.toNat % 16)] := by
  cases plusSpace <;> by_cases hc : c = ' ' <;> simp_all [escEncodeChar]

theorem escDecode_cons_plain {plusSpace : Bool} {c : Char} (h1 : c ≠ '%')
    (h2 : ¬(plusSpace = true ∧ c = '+')) (rest : List Char) :
    escDecode plusSpace (c :: rest) = c :: escDecode plusSpace rest := by
  have h2' : (plusSpace && decide (c = '+')) = false := by
    cases plusSpace <;> by_cases hc : c = '+' <;> simp_all
  match rest with
  | [] => simp [escDecode, h1, h2']
  | [x] => simp [escDecode, h1, h2']
  | x :: y :: r => simp [escDecode, h1, h2']

theorem escDecode_cons_plus (rest : List Char) :
    escDecode true ('+' :: rest) = ' ' :: escDecode true rest := by
  match rest with
  | [] => rfl
  | [x] => rfl
  | x :: y :: r => rfl

theorem escDecode_cons_escaped {plusSpace : Bool} {c : Char} (h : c.toNat < 128)
    (rest : List Char) :
    escDecode plusSpace
        ('%' :: hexDigitChar (c.toNat / 16) :: hexDigitChar (c.toNat % 16) :: rest) =
      c :: escDecode plusSpace rest := by
  have h1 : c.toNat / 16 < 16 := by omega
  have h2 : c.toNat % 16 < 16 := by omega
  simp [escDecode, hexVal_hexDigitChar h1, hexVal_hexDigitChar h2,
    Nat.div_add_mod c.toNat 16]

theorem escDecode_escEncode {plusSpace : Bool} {keep : Char → Bool}
    (hkeep : ∀ c, keep c = true → c ≠ '%' ∧ (plusSpace = true → c ≠ '+'))
    {s : List Char} (hs : ∀ c ∈ s, c.toNat < 128) :
    escDecode plusSpace (escEncode plusSpace keep s) = s := by
  induction s with
  | nil => rfl
  | cons c rest ih =>
    have hc : c.toNat < 128 := hs c (by simp)
    have ih' := ih (fun x hx => hs x (by simp [hx]))
    simp only [escEncode, List.flatMap_cons] at ih' ⊢
    by_cases hsp : plusSpace = true ∧ c = ' '
    · obtain ⟨hp, hcs⟩ := hsp
      subst hcs hp
      rw [escEncodeChar_space, List.singleton_append, escDecode_cons_plus, ih']
    · by_cases hk : keep c = true
      · rw [escEncodeChar_keep hk hsp, List.singleton_append,
          escDecode_cons_plain (hkeep c hk).1
            (fun hpc => (hkeep c hk).2 hpc.1 hpc.2), ih']
      · rw [escEncodeChar_esc (Bool.eq_false_iff.mpr hk) hsp, List.cons_append,
          List.cons_append, List.cons_append, List.nil_append,
          escDecode_cons_escaped hc, ih']

theorem not_mem_escEncode {plusSpace : Bool} {keep : Char → Bool} {sep : Char}
    (hk : keep sep = false) (hp : sep ≠ '%') (hplus : sep ≠ '+')
    (hhex : sep.toNat < 48 ∨ (57 < sep.toNat ∧ sep.toNat < 65) ∨ 70 < sep.toNat)
    {s : List Char} (hs : ∀ c ∈ s, c.toNat < 128) :
    sep ∉ escEncode plusSpace keep s := by
  induction s with
  | nil => simp [escEncode]
  | cons c rest ih =>
    have hc : c.toNat < 128 := hs c (by simp)
    have ih' := ih (fun x hx => hs x (by simp [hx]))
    simp only [escEncode, List.flatMap_cons, List.mem_append]
    intro hmem
    rcases hmem with hmem | hmem
    · revert hmem
      simp only [escEncodeChar]
      split
      · simp only [List.mem_singleton]
        intro he
        exact hplus he
      · split
        · simp only [List.mem_singleton]
          intro he
          subst he
          simp_all
        · simp only [List.mem_cons, List.mem_singleton, List.not_mem_nil, or_false]
          rintro (he | he | he)
          · exact hp he
          · exact hexDigitChar_ne (n := c.toNat / 16) (by omega) hhex he.symm
          · exact hexDigitChar_ne (n := c.toNat % 16) (by omega) hhex he.symm
    · exact ih' hmem

/-! ## Lemmas: splitting and joining -/

theorem splitOnChar_ne_nil {sep : Char} (s : List Char) : splitOnChar sep s ≠ [] := by
  match s with
  | [] => simp [splitOnChar]
  | c :: rest => by_cases hc : c = sep <;> simp [splitOnChar, hc]

theorem splitOnChar_no_sep {sep : Char} {s : List Char} (h : sep ∉ s) :
    splitOnChar sep s = [s] := by
  induction s with
  | nil => rfl
  | cons c rest ih =>
    have hc : c ≠ sep := fun he => h (by simp [he])
    have ih' := ih (fun hm => h (by simp [hm]))
    simp [splitOnChar, ih', hc]

theorem splitOnChar_append_sep {sep : Char} {x : List Char} (h : sep ∉ x)
    (t : List Char) :
    splitOnChar sep (x ++ sep :: t) = x :: splitOnChar sep t := by
  induction x with
  | nil =>
    simp only [List.nil_append, splitOnChar]
    rcases ht : splitOnChar sep t with _ | ⟨y, ys⟩
    · exact absurd ht (splitOnChar_ne_nil t)
    · simp
  | cons c rest ih =>
    have hc : c ≠ sep := fun he => h (by simp [he])
    have ih' := ih (fun hm => h (by simp [hm]))
    simp [List.cons_append, splitOnChar, ih', hc]

theorem splitOnChar_joinSep {sep : Char} {xs : List (List Char)}
    (h : ∀ x ∈ xs, sep ∉ x) (hne : xs ≠ []) :
    splitOnChar sep (joinSep sep xs) = xs := by
  induction xs with
  | nil => exact absurd rfl hne
  | cons x ys ih =>
    match ys with
    | [] => exact splitOnChar_no_sep (h x (by simp))
    | y :: ys' =>
      have hx : sep ∉ x := h x (by simp)
      rw [joinSep, splitOnChar_append_sep hx,
        ih (fun z hz => h z (by simp [hz])) (by simp)]

theorem splitFirst_append {sep : Char} {k : List Char} (h : sep ∉ k)
    (v : List Char) :
    splitFirst sep (k ++ sep :: v) = (k, some v) := by
  induction k with
  | nil => simp [splitFirst]
  | cons c rest ih =>
    have hc : c ≠ sep := fun he => h (by simp [he])
    have ih' := ih (fun hm => h (by simp [hm]))
    simp [splitFirst, hc, ih']

theorem mem_of_mem_splitOnChar {sep : Char} {s piece : List Char} {c : Char}
    (hp : piece ∈ splitOnChar sep s) (hc : c ∈ piece) : c ∈ s := by
  induction s generalizing piece with
  | nil =>
    simp only [splitOnChar, List.mem_singleton] at hp
    subst hp
    exact absurd hc (List.not_mem_nil c)
  | cons d rest ih =>
    rcases hsp : splitOnChar sep rest with _ | ⟨x, xs⟩
    · exact absurd hsp (splitOnChar_ne_nil rest)
    · simp only [splitOnChar, hsp] at hp
      by_cases hd : d = sep
      · rw [if_pos hd] at hp
        rcases List.mem_cons.mp hp with hp | hp
        · subst hp
          exact absurd hc (List.not_mem_nil c)
        · exact List.mem_cons_of_mem d (@ih piece (by rw [hsp]; exact hp) hc)
      · rw [if_neg hd] at hp
        simp only [List.headD_cons, List.tail_cons] at hp
        rcases List.mem_cons.mp hp with hp | hp
        · subst hp
          rcases List.mem_cons.mp hc with hc | hc
          · simp [hc]
          · exact List.mem_cons_of_mem d
              (@ih x (by rw [hsp]; exact List.mem_cons_self x xs) hc)
        · exact List.mem_cons_of_mem d
            (@ih piece (by rw [hsp]; exact List.mem_cons_of_mem x hp) hc)

/-! ## Lemmas: canonical JSON printing and parsing -/

theorem parseStringBody_append {s : List Char} (h : '"' ∉ s) (rest : List Char) :
    parseStringBody (s ++ '"' :: rest) = some (s, rest) := by
  induction s with
  | nil => simp [parseStringBody]
  | cons c cs ih =>
    have hc : c ≠ '"' := fun he => h (by simp [he])
    have ih' := ih (fun hm => h (by simp [hm]))
    simp [parseStringBody, hc, ih']

theorem parseJsonString_print {s : List Char} (h : '"' ∉ s) (rest : List Char) :
    parseJsonString (printJsonString s ++ rest) = some (s, rest) := by
  simp [printJsonString, parseJsonString, List.append_assoc,
    parseStringBody_append h]

theorem length_le_length_printObjItems (pairs : List (String × List Char)) :
    pairs.length ≤ (printObjItems pairs).length := by
  match pairs with
  | [] => simp [printObjItems]
  | [(k, v)] => simp [printObjItems, printJsonString]
  | (k, v) :: p :: ps =>
    have ih := length_le_length_printObjItems (p :: ps)
    simp only [printObjItems, printJsonString, List.length_cons, List.length_append] at ih ⊢
    omega

theorem parseObjItems_print {pairs : List (String × List Char)}
    (hne : pairs ≠ [])
    (hclean : ∀ p ∈ pairs, '"' ∉ p.1.data ∧ '"' ∉ p.2)
    {fuel : Nat} (hfuel : pairs.length ≤ fuel) (rest : List Char) :
    parseObjItems fuel (printObjItems pairs ++ rest) = some (pairs, rest) := by
  match pairs, fuel with
  | [], _ => exact absurd rfl hne
  | (k, v) :: ps, fuel + 1 =>
    have hk : '"' ∉ k.data := (hclean (k, v) (by simp)).1
    have hv : '"' ∉ v := (hclean (k, v) (by simp)).2
    match ps with
    | [] =>
      simp only [printObjItems, List.append_assoc, List.cons_append]
      rw [parseObjItems, parseJsonString_print hk]
      simp only [List.cons_append]
      rw [parseJsonString_print hv]
      simp [rcub, lcub]
    | p :: ps' =>
      have ih := @parseObjItems_print (p :: ps')
        (by simp) (fun q hq => hclean q (by simp [hq]))
        fuel (by simp at hfuel ⊢; omega) rest
      simp only [printObjItems, List.append_assoc, List.cons_append]
      rw [parseObjItems, parseJsonString_print hk]
      simp only [List.cons_append]
      rw [parseJsonString_print hv]
      simp only [List.cons_append]
      have hcomma : (',' : Char) ≠ rcub := by decide
      simp only [if_pos rfl, hcomma, reduceIte]
      rw [ih]

theorem parseJsonObj_print {pairs : List (String × List Char)}
    (hne : pairs ≠ [])
    (hclean : ∀ p ∈ pairs, '"' ∉ p.1.data ∧ '"' ∉ p.2) :
    parseJsonObj (printJsonObj pairs) = some pairs := by
  match pairs with
  | [] => exact absurd rfl hne
  | (k, v) :: ps =>
    have hfuel : ((k, v) :: ps).length ≤ (lcub :: printObjItems ((k, v) :: ps)).length := by
      have := length_le_length_printObjItems ((k, v) :: ps)
      simp only [List.length_cons] at this ⊢
      omega
    have hitems := @parseObjItems_print ((k, v) :: ps) (by simp) hclean
      ((lcub :: printObjItems ((k, v) :: ps)).length) hfuel []
    simp only [List.append_nil] at hitems
    have hstart : ∃ t, printObjItems ((k, v) :: ps) = '"' :: t := by
      match ps with
      | [] => exact ⟨_, rfl⟩
      | p :: ps' => exact ⟨_, rfl⟩
    obtain ⟨t, ht⟩ := hstart
    rw [printJsonObj, parseJsonObj.eq_def]
    rw [ht]
    have hq : ('"' : Char) ≠ rcub := by decide
    simp only [if_pos rfl, hq, reduceIte]
    rw [← ht, hitems]

theorem parseJsonNewtype_print {s : List Char} (h : '"' ∉ s) :
    parseJsonNewtype (printJsonString s) = some s := by
  have := parseJsonString_print h ([] : List Char)
  simp only [List.append_nil] at this
  simp [parseJsonNewtype, this]

/-! ## Lemmas: association-list lookups and monadic maps -/

theorem find?_eq_of_nodup_mem {α : Type} {p : String × α} {v : List (String × α)}
    (hnd : (v.map Prod.fst).Nodup) (hm : p ∈ v) :
    v.find? (fun q => q.1 = p.1) = some p := by
  induction v with
  | nil => exact absurd hm (List.not_mem_nil p)
  | cons q v ih =>
    rcases List.mem_cons.mp hm with hm | hm
    · subst hm
      exact List.find?_cons_of_pos _ (by simp)
    · have hq : q.1 ≠ p.1 := by
        intro he
        have : q.1 ∈ v.map Prod.fst := he ▸ List.mem_map_of_mem Prod.fst hm
        exact (List.nodup_cons.mp hnd).1 this
      rw [List.find?_cons_of_neg _ (by simp [hq])]
      exact ih (List.nodup_cons.mp hnd).2 hm

theorem lookupVal_eq_of_nodup_mem {p : String × List Char} {v : Assignment}
    (hnd : (v.map Prod.fst).Nodup) (hm : p ∈ v) :
    lookupVal v p.1 = p.2 := by
  simp [lookupVal, find?_eq_of_nodup_mem hnd hm]

theorem lookupVal_mem_or_nil (v : Assignment) (n : String) :
    lookupVal v n = [] ∨ ∃ p ∈ v, lookupVal v n = p.2 := by
  rcases hf : v.find? (fun q => q.1 = n) with _ | p
  · left
    simp [lookupVal, hf]
  · right
    exact ⟨p, List.mem_of_find?_eq_some hf, by simp [lookupVal, hf]⟩

theorem mapM_eq_ok_map {α β ε : Type} (g : α → Except ε β) (h : α → β) :
    ∀ (l : List α), (∀ a ∈ l, g a = .ok (h a)) → l.mapM g = .ok (l.map h)
  | [], _ => rfl
  | a :: l, H => by
    rw [List.mapM_cons, H a (by simp),
      mapM_eq_ok_map g h l (fun x hx => H x (List.mem_cons_of_mem a hx))]
    rfl

theorem names_sublist_of_filterMap {β : Type} (fields : List RequestField)
    (g : RequestField → Option (String × β))
    (hg : ∀ f p, g f = some p → p.1 = f.field_name) :
    ((fields.filterMap g).map Prod.fst).Sublist
      (fields.map RequestField.field_name) := by
  induction fields with
  | nil => simp
  | cons f fs ih =>
    rcases hf : g f with _ | p
    · simp only [List.filterMap_cons, hf, List.map_cons]
      exact ih.cons f.field_name
    · simp only [List.filterMap_cons, hf, List.map_cons, hg f p hf]
      exact ih.cons₂ f.field_name

theorem resp_names_sublist_of_filterMap {β : Type} (fields : List ResponseField)
    (g : ResponseField → Option (String × β))
    (hg : ∀ f p, g f = some p → p.1 = f.field_name) :
    ((fields.filterMap g).map Prod.fst).Sublist
      (fields.map ResponseField.field_name) := by
  induction fields with
  | nil => simp
  | cons f fs ih =>
    rcases hf : g f with _ | p
    · simp only [List.filterMap_cons, hf, List.map_cons]
      exact ih.cons f.field_name
    · simp only [List.filterMap_cons, hf, List.map_cons, hg f p hf]
      exact ih.cons₂ f.field_name

theorem header_names_eq_filterMap (fields : List RequestField) (v : Assignment) :
    ((fields.filterMap (fun f =>
        match f with
        | .header rf name => some (name, lookupVal v rf.name)
        | _ => none)).map Prod.fst) =
      fields.filterMap RequestField.header_name := by
  induction fields with
  | nil => simp
  | cons f fs ih =>
    cases f <;> simp [List.filterMap_cons, RequestField.header_name, ih]

theorem resp_header_names_eq_filterMap (fields : List ResponseField) (v : Assignment) :
    ((fields.filterMap (fun f =>
        match f with
        | .header rf name => some (name, lookupVal v rf.name)
        | _ => none)).map Prod.fst) =
      fields.filterMap ResponseField.header_name := by
  induction fields with
  | nil => simp
  | cons f fs ih =>
    cases f <;> simp [List.filterMap_cons, ResponseField.header_name, ih]

theorem newtype_body_field_eq_of_unique {schema : Request} {rf : RawField}
    (hmem : RequestField.newtypeBody rf ∈ schema.fields)
    (huniq : (schema.fields.filter (fun f => f.kind = .NewtypeBody)).length ≤ 1) :
    schema.newtype_body_field = some rf := by
  obtain ⟨fields⟩ := schema
  simp only [Request.newtype_body_field] at *
  induction fields with
  | nil => exact absurd hmem (List.not_mem_nil _)
  | cons f fs ih =>
    rcases List.mem_cons.mp hmem with hm | hm
    · subst hm
      simp [List.findSome?_cons, RequestField.as_newtype_body_field]
    · have hkind : (RequestField.newtypeBody rf).kind = .NewtypeBody := rfl
      have hmemtail : RequestField.newtypeBody rf ∈ fs.filter (fun f => f.kind = .NewtypeBody) :=
        List.mem_filter.mpr ⟨hm, by simp [RequestField.kind]⟩
      have htailpos : 1 ≤ (fs.filter (fun f => f.kind = .NewtypeBody)).length :=
        List.length_pos.mpr (List.ne_nil_of_mem hmemtail)
      match hf : f with
      | .newtypeBody rf' =>
        exfalso
        rw [List.filter_cons_of_pos (by simp [RequestField.kind])] at huniq
        simp only [List.length_cons] at huniq
        omega
      | .body rf' | .header rf' n | .path rf' | .query rf' =>
        rw [List.filter_cons_of_neg (by simp [RequestField.kind])] at huniq
        rw [List.findSome?_cons]
        simp only [RequestField.as_newtype_body_field]
        exact ih hm huniq

theorem newtype_body_field_isSome_of_mem {schema : Request} {rf : RawField}
    (hmem : RequestField.newtypeBody rf ∈ schema.fields) :
    schema.newtype_body_field.isSome := by
  obtain ⟨fields⟩ := schema
  simp only [Request.newtype_body_field]
  rw [List.findSome?_isSome_iff]
  exact ⟨_, hmem, by simp [RequestField.as_newtype_body_field]⟩

/-! ## Lemmas: round trips of the individual codecs -/

theorem formUrlKeep_spec :
    ∀ c, formUrlKeep c = true → c ≠ '%' ∧ (true = true → c ≠ '+') := by
  intro c h
  constructor
  · intro he
    subst he
    exact absurd h (by decide)
  · intro _ he
    subst he
    exact absurd h (by decide)

theorem pathSegmentKeep_spec :
    ∀ c, pathSegmentKeep c = true → c ≠ '%' ∧ (false = true → c ≠ '+') := by
  intro c h
  refine ⟨fun he => ?_, fun hf => absurd hf (by simp)⟩
  subst he
  exact absurd h (by decide)

theorem slash_not_mem_pathEnc {s : List Char} (hs : ∀ c ∈ s, c.toNat < 128) :
    '/' ∉ escEncode false pathSegmentKeep s :=
  not_mem_escEncode (by decide) (by decide) (by decide) (by decide) hs

theorem amp_not_mem_formEnc {s : List Char} (hs : ∀ c ∈ s, c.toNat < 128) :
    '&' ∉ escEncode true formUrlKeep s :=
  not_mem_escEncode (by decide) (by decide) (by decide) (by decide) hs

theorem eq_not_mem_formEnc {s : List Char} (hs : ∀ c ∈ s, c.toNat < 128) :
    '=' ∉ escEncode true formUrlKeep s :=
  not_mem_escEncode (by decide) (by decide) (by decide) (by decide) hs

theorem form_decode_form_encode {pairs : List (String × List Char)}
    (hne : pairs ≠ [])
    (hclean : ∀ p ∈ pairs, (∀ c ∈ p.1.data, c.toNat < 128) ∧ ∀ c ∈ p.2, c.toNat < 128) :
    form_decode (form_encode pairs) = pairs := by
  have hpiece : ∀ p ∈ pairs,
      '&' ∉ escEncode true formUrlKeep p.1.data ++ '=' :: escEncode true formUrlKeep p.2 := by
    intro p hp hmem
    rcases List.mem_append.mp hmem with hmem | hmem
    · exact amp_not_mem_formEnc (hclean p hp).1 hmem
    · rcases List.mem_cons.mp hmem with hmem | hmem
      · exact absurd hmem (by decide)
      · exact amp_not_mem_formEnc (hclean p hp).2 hmem
  have hq_ne : form_encode pairs ≠ [] := by
    match pairs with
    | [] => exact absurd rfl hne
    | [p] =>
      simp only [form_encode, List.map_cons, List.map_nil, joinSep]
      intro h
      have : ('=' : Char) ∈ ([] : List Char) := by
        rw [← h]
        simp
      exact absurd this (List.not_mem_nil _)
    | p :: q :: ps =>
      simp only [form_encode, List.map_cons, joinSep]
      intro h
      have : ('=' : Char) ∈ ([] : List Char) := by
        rw [← h]
        simp
      exact absurd this (List.not_mem_nil _)
  have hpieces : ∀ x ∈ pairs.map (fun p =>
      escEncode true formUrlKeep p.1.data ++ '=' :: escEncode true formUrlKeep p.2),
      '&' ∉ x := by
    intro x hx
    obtain ⟨p, hp, rfl⟩ := List.mem_map.mp hx
    exact hpiece p hp
  have hmap_ne : pairs.map (fun p =>
      escEncode true formUrlKeep p.1.data ++ '=' :: escEncode true formUrlKeep p.2) ≠ [] := by
    intro h
    exact hne (List.map_eq_nil_iff.mp h)
  rw [form_decode, if_neg hq_ne, form_encode, splitOnChar_joinSep hpieces hmap_ne]
  rw [List.map_map]
  conv_rhs => rw [← List.map_id pairs]
  apply List.map_congr_left
  intro p hp
  simp only [Function.comp_apply, id_eq]
  rw [splitFirst_append (eq_not_mem_formEnc (hclean p hp).1)]
  simp only [Option.getD_some]
  rw [escDecode_escEncode formUrlKeep_spec (hclean p hp).1,
    escDecode_escEncode formUrlKeep_spec (hclean p hp).2]

theorem placeholder_positions_get {path : String} {i : Nat} {n : String}
    (h : (i, n) ∈ placeholder_positions path) :
    (template_segments path).get? i = some (':' :: n.data) := by
  simp only [placeholder_positions, List.mem_filterMap] at h
  obtain ⟨⟨j, seg⟩, hmem, hg⟩ := h
  match seg with
  | [] => exact absurd hg (by simp)
  | c :: rest =>
    simp only at hg
    by_cases hc : c = ':'
    · rw [if_pos hc] at hg
      have h2 := Option.some.inj hg
      have hj : j = i := congrArg Prod.fst h2
      have hn : String.mk rest = n := congrArg Prod.snd h2
      subst hj hc
      have hgot : (template_segments path)[j]? = some (':' :: rest) :=
        List.mk_mem_enum_iff_getElem?.mp hmem
      rw [List.get?_eq_getElem?, hgot, ← hn]
    · rw [if_neg hc] at hg
      exact absurd hg (by simp)

theorem ascii_of_asciiClean {w : List Char} (h : asciiClean w = true) :
    ∀ c ∈ w, c.toNat < 128 := by
  intro c hc
  have := (List.all_eq_true.mp h) c hc
  simpa using this

theorem quote_not_mem_of_jsonClean {w : List Char} (h : jsonClean w = true) :
    '"' ∉ w := by
  intro hm
  have := (List.all_eq_true.mp h) '"' hm
  simp at this

/-- Round trip of the generated request codec pair, for structured values
whose field assignments are clean in the sense of `field_value_clean`. -/
theorem request_round_trip (schema : Request) (path : String) (method : String)
    (val : String → List Char)
    (hnodup : (schema.fields.map RequestField.field_name).Nodup)
    (hhdr : (schema.fields.filterMap RequestField.header_name).Nodup)
    (hmode : body_mode_ok schema = true)
    (hpath_ascii : asciiClean path.data = true)
    (hplace : schema.fields.all (fun f =>
      match f with
      | RequestField.path rf =>
        decide (rf.name ∈ (placeholder_positions path).map Prod.snd)
      | _ => true) = true)
    (hvals : ∀ f ∈ schema.fields, field_value_clean f (val f.field_name) = true)
    (hnames : ∀ f ∈ schema.fields, name_clean f.field_name = true) :
    decode_request schema path
        (encode_request schema path method (request_value schema val)) =
      .ok (request_value schema val) := by
  classical
  set v := request_value schema val with hv
  -- association facts about the canonical value
  have hvnames : v.map Prod.fst = schema.fields.map RequestField.field_name := by
    simp [hv, request_value, List.map_map, Function.comp_def]
  have hvnodup : (v.map Prod.fst).Nodup := by rw [hvnames]; exact hnodup
  have hlook : ∀ f ∈ schema.fields, lookupVal v f.field_name = val f.field_name := by
    intro f hf
    exact lookupVal_eq_of_nodup_mem (p := (f.field_name, val f.field_name)) hvnodup
      (by simp only [hv, request_value]; exact List.mem_map_of_mem _ hf)
  have hvascii : ∀ p ∈ v, ∀ c ∈ p.2, c.toNat < 128 := by
    intro p hp
    simp only [hv, request_value, List.mem_map] at hp
    obtain ⟨f, hf, rfl⟩ := hp
    exact ascii_of_asciiClean (Bool.and_elim_left (hvals f hf))
  have hlookascii : ∀ n, ∀ c ∈ lookupVal v n, c.toNat < 128 := by
    intro n
    rcases lookupVal_mem_or_nil v n with h | ⟨p, hp, h⟩ <;> rw [h]
    · simp
    · exact hvascii p hp
  have hpathchars : ∀ c ∈ path.data, c.toNat < 128 := ascii_of_asciiClean hpath_ascii
  -- the encoded envelope, componentwise
  set henc := encode_request schema path method v with hencdef
  -- the parsed body
  set qlist := schema.fields.filterMap (fun f =>
    f.as_query_field.map (fun rf => (rf.name, lookupVal v rf.name))) with hqlistdef
  set hlist := schema.fields.filterMap (fun f =>
    match f with
    | RequestField.header rf name => some (name, lookupVal v rf.name)
    | _ => none) with hhlistdef
  set blist := schema.fields.filterMap (fun f =>
    f.as_body_field.map (fun rf => (rf.name, lookupVal v rf.name))) with hblistdef
  set Bp := (match schema.newtype_body_field with
    | some rf => BodyParsed.newtype (lookupVal v rf.name)
    | none =>
      if schema.has_body_fields then BodyParsed.obj blist else BodyParsed.empty) with hBpdef
  have hblist_clean : ∀ p ∈ blist, '"' ∉ p.1.data ∧ '"' ∉ p.2 := by
    intro p hp
    simp only [hblistdef, List.mem_filterMap] at hp
    obtain ⟨f, hf, hsome⟩ := hp
    match f with
    | RequestField.body rf =>
      simp only [RequestField.as_body_field, Option.map_some] at hsome
      cases hsome
      constructor
      · exact quote_not_mem_of_jsonClean (Bool.and_elim_right (hnames _ hf))
      · show '"' ∉ lookupVal v rf.name
        have hl := hlook _ hf
        simp only [RequestField.field_name, RequestField.field] at hl
        rw [hl]
        exact quote_not_mem_of_jsonClean
          (by have h2 := Bool.and_elim_right (hvals _ hf); simpa [field_value_clean] using h2)
    | RequestField.header rf n => simp [RequestField.as_body_field] at hsome
    | RequestField.newtypeBody rf => simp [RequestField.as_body_field] at hsome
    | RequestField.path rf => simp [RequestField.as_body_field] at hsome
    | RequestField.query rf => simp [RequestField.as_body_field] at hsome
  have hbody : decode_request_body schema henc.body = .ok Bp := by
    rw [hBpdef]
    rcases hnb : schema.newtype_body_field with _ | rf
    · by_cases hbf : schema.has_body_fields
      · have hmem : ∃ f ∈ schema.fields, f.is_body := by
          simpa [Request.has_body_fields, List.any_eq_true] using hbf
        obtain ⟨f, hf, hfb⟩ := hmem
        match f with
        | RequestField.body rf =>
          have hpmem : (rf.name, lookupVal v rf.name) ∈ blist := by
            simp only [hblistdef, List.mem_filterMap]
            exact ⟨RequestField.body rf, hf, by simp [RequestField.as_body_field]⟩
          simp only [decode_request_body, hencdef, encode_request, hnb, hbf, if_pos]
          rw [parseJsonObj_print (List.ne_nil_of_mem hpmem) hblist_clean]
        | RequestField.header rf n => simp [RequestField.is_body, RequestField.kind] at hfb
        | RequestField.newtypeBody rf => simp [RequestField.is_body, RequestField.kind] at hfb
        | RequestField.path rf => simp [RequestField.is_body, RequestField.kind] at hfb
        | RequestField.query rf => simp [RequestField.is_body, RequestField.kind] at hfb
      · simp only [decode_request_body, hencdef, encode_request, hnb]
        simp [hbf]
    · have hfmem : ∃ f ∈ schema.fields, f.as_newtype_body_field = some rf :=
        List.exists_of_findSome?_eq_some hnb
      obtain ⟨f, hf, hfsome⟩ := hfmem
      match f with
      | RequestField.newtypeBody rf' =>
        simp only [RequestField.as_newtype_body_field, Option.some.injEq] at hfsome
        rw [hfsome] at hf
        have hjc : '"' ∉ lookupVal v rf.name := by
          have hl := hlook _ hf
          simp only [RequestField.field_name, RequestField.field] at hl
          rw [hl]
          exact quote_not_mem_of_jsonClean
            (by have h2 := Bool.and_elim_right (hvals _ hf); simpa [field_value_clean] using h2)
        simp only [decode_request_body, hencdef, encode_request, hnb]
        rw [parseJsonNewtype_print hjc]
      | RequestField.body rf' => simp [RequestField.as_newtype_body_field] at hfsome
      | RequestField.header rf' n => simp [RequestField.as_newtype_body_field] at hfsome
      | RequestField.path rf' => simp [RequestField.as_newtype_body_field] at hfsome
      | RequestField.query rf' => simp [RequestField.as_newtype_body_field] at hfsome
  -- pointwise field decoding
  have hpoint : ∀ f ∈ schema.fields,
      decode_request_field path (splitOnChar '/' (henc.path.drop 1))
        (form_decode (henc.query.getD [])) henc.headers Bp f =
      .ok (f.field_name, lookupVal v f.field_name) := by
    intro f hf
    match f with
    | RequestField.path rf =>
      have hpf : schema.has_path_fields = true := by
        simp only [Request.has_path_fields, List.any_eq_true]
        exact ⟨_, hf, by simp [RequestField.is_path, RequestField.kind]⟩
      have hsegs : splitOnChar '/' (henc.path.drop 1) =
          (template_segments path).map (encode_path_segment v) := by
        have hfree : ∀ x ∈ (template_segments path).map (encode_path_segment v),
            '/' ∉ x := by
          intro x hx
          obtain ⟨seg, hseg, rfl⟩ := List.mem_map.mp hx
          match seg with
          | [] => simp [encode_path_segment]
          | c :: rest =>
            simp only [encode_path_segment]
            by_cases hc : c = ':'
            · rw [if_pos hc]
              exact slash_not_mem_pathEnc (hlookascii _)
            · rw [if_neg hc]
              apply slash_not_mem_pathEnc
              intro ch hch
              exact hpathchars ch (List.mem_of_mem_drop (mem_of_mem_splitOnChar hseg hch))
        have hne : (template_segments path).map (encode_path_segment v) ≠ [] := by
          intro h
          exact splitOnChar_ne_nil _ (List.map_eq_nil_iff.mp h)
        have hpath_eq : henc.path =
            '/' :: joinSep '/' ((template_segments path).map (encode_path_segment v)) := by
          simp [hencdef, encode_request, encode_path, hpf]
        rw [hpath_eq, List.drop_succ_cons, List.drop_zero, splitOnChar_joinSep hfree hne]
      have hplf := List.all_eq_true.mp hplace _ hf
      simp only [decide_eq_true_eq] at hplf
      obtain ⟨pr, hpr, hpr2⟩ := List.mem_map.mp hplf
      have hfindsome : ((placeholder_positions path).find? (fun p => p.2 = rf.name)).isSome := by
        rw [List.find?_isSome]
        exact ⟨pr, hpr, by simp [hpr2]⟩
      obtain ⟨⟨i, nm⟩, hfind⟩ := Option.isSome_iff_exists.mp hfindsome
      have hnm : nm = rf.name := by simpa using List.find?_some hfind
      subst hnm
      have hmempos : (i, rf.name) ∈ placeholder_positions path :=
        List.mem_of_find?_eq_some hfind
      have hget := placeholder_positions_get hmempos
      have hseg_eq : encode_path_segment v (':' :: rf.name.data) =
          escEncode false pathSegmentKeep (lookupVal v rf.name) := by
        simp [encode_path_segment]
      simp only [decode_request_field, hfind, hsegs, List.get?_map, hget,
        Option.map_some', hseg_eq,
        escDecode_escEncode pathSegmentKeep_spec (hlookascii (rf.name))]
      rfl
    | RequestField.query rf =>
      have hqf : schema.has_query_fields = true := by
        simp only [Request.has_query_fields, List.any_eq_true]
        exact ⟨_, hf, by simp [RequestField.is_query, RequestField.kind]⟩
      have hqmem : (rf.name, lookupVal v rf.name) ∈ qlist := by
        simp only [hqlistdef, List.mem_filterMap]
        exact ⟨RequestField.query rf, hf, by simp [RequestField.as_query_field]⟩
      have hqclean : ∀ p ∈ qlist,
          (∀ c ∈ p.1.data, c.toNat < 128) ∧ ∀ c ∈ p.2, c.toNat < 128 := by
        intro p hp
        simp only [hqlistdef, List.mem_filterMap] at hp
        obtain ⟨f', hf', hsome⟩ := hp
        match f' with
        | RequestField.query rf' =>
          simp only [RequestField.as_query_field, Option.map_some', Option.some.injEq] at hsome
          subst hsome
          refine ⟨?_, hlookascii _⟩
          have hn := Bool.and_elim_left (hnames _ hf')
          exact ascii_of_asciiClean hn
        | RequestField.body rf' => simp [RequestField.as_query_field] at hsome
        | RequestField.header rf' n => simp [RequestField.as_query_field] at hsome
        | RequestField.newtypeBody rf' => simp [RequestField.as_query_field] at hsome
        | RequestField.path rf' => simp [RequestField.as_query_field] at hsome
      have hqdec : form_decode (henc.query.getD []) = qlist := by
        have hqenc : henc.query = some (form_encode qlist) := by
          simp [hencdef, encode_request, hqf, hqlistdef]
        rw [hqenc, Option.getD_some,
          form_decode_form_encode (List.ne_nil_of_mem hqmem) hqclean]
      have hqnodup : (qlist.map Prod.fst).Nodup := by
        refine List.Nodup.sublist ?_ hnodup
        rw [hqlistdef]
        apply names_sublist_of_filterMap
        intro f' p hp
        match f' with
        | RequestField.query rf' =>
          simp only [RequestField.as_query_field, Option.map_some', Option.some.injEq] at hp
          subst hp
          rfl
        | RequestField.body rf' => simp [RequestField.as_query_field] at hp
        | RequestField.header rf' n => simp [RequestField.as_query_field] at hp
        | RequestField.newtypeBody rf' => simp [RequestField.as_query_field] at hp
        | RequestField.path rf' => simp [RequestField.as_query_field] at hp
      simp only [decode_request_field, hqdec,
        find?_eq_of_nodup_mem hqnodup hqmem]
      rfl
    | RequestField.header rf name =>
      have hhmem : (name, lookupVal v rf.name) ∈ hlist := by
        simp only [hhlistdef, List.mem_filterMap]
        exact ⟨RequestField.header rf name, hf, rfl⟩
      have hhnodup : (hlist.map Prod.fst).Nodup := by
        rw [hhlistdef, header_names_eq_filterMap]
        exact hhdr
      have hvis : (lookupVal v rf.name).all visibleAscii = true := by
        have hl := hlook _ hf
        simp only [RequestField.field_name, RequestField.field] at hl
        rw [hl]
        have h2 := Bool.and_elim_right (hvals _ hf)
        simpa [field_value_clean] using h2
      have hhenc : henc.headers = hlist := by
        simp [hencdef, encode_request, hhlistdef]
      have hph : parse_header_field hlist name = .ok (String.mk (lookupVal v rf.name)) := by
        rw [parse_header_field, find?_eq_of_nodup_mem hhnodup hhmem, Option.some_bind]
        simp [header_to_str, hvis]
      simp only [decode_request_field, hhenc, hph, Except.map]
      rfl
    | RequestField.body rf =>
      have hbf : schema.has_body_fields = true := by
        simp only [Request.has_body_fields, List.any_eq_true]
        exact ⟨_, hf, by simp [RequestField.is_body, RequestField.kind]⟩
      have hnbnone : schema.newtype_body_field = none := by
        have h1 := Bool.and_elim_left hmode
        rw [hbf] at h1
        rcases hopt : schema.newtype_body_field with _ | rf'
        · rfl
        · rw [hopt] at h1
          simp at h1
      have hBp : Bp = BodyParsed.obj blist := by
        rw [hBpdef, hnbnone, hbf]
        simp
      have hbmem : (rf.name, lookupVal v rf.name) ∈ blist := by
        simp only [hblistdef, List.mem_filterMap]
        exact ⟨RequestField.body rf, hf, by simp [RequestField.as_body_field]⟩
      have hbnodup : (blist.map Prod.fst).Nodup := by
        refine List.Nodup.sublist ?_ hnodup
        rw [hblistdef]
        apply names_sublist_of_filterMap
        intro f' p hp
        match f' with
        | RequestField.body rf' =>
          simp only [RequestField.as_body_field, Option.map_some', Option.some.injEq] at hp
          subst hp
          rfl
        | RequestField.query rf' => simp [RequestField.as_body_field] at hp
        | RequestField.header rf' n => simp [RequestField.as_body_field] at hp
        | RequestField.newtypeBody rf' => simp [RequestField.as_body_field] at hp
        | RequestField.path rf' => simp [RequestField.as_body_field] at hp
      simp only [decode_request_field, hBp, find?_eq_of_nodup_mem hbnodup hbmem]
      rfl
    | RequestField.newtypeBody rf =>
      have huniq : (schema.fields.filter (fun f => f.kind = .NewtypeBody)).length ≤ 1 := by
        have h2 := Bool.and_elim_right hmode
        exact of_decide_eq_true h2
      have hnbsome : schema.newtype_body_field = some rf :=
        newtype_body_field_eq_of_unique hf huniq
      have hBp : Bp = BodyParsed.newtype (lookupVal v rf.name) := by
        rw [hBpdef, hnbsome]
      simp only [decode_request_field, hBp]
      rfl
  -- assembly
  have hfinal := mapM_eq_ok_map
    (decode_request_field path (splitOnChar '/' (henc.path.drop 1))
      (form_decode (henc.query.getD [])) henc.headers Bp)
    (fun f => (f.field_name, lookupVal v f.field_name)) schema.fields hpoint
  show decode_request schema path henc = .ok v
  unfold decode_request
  rw [hbody]
  show schema.fields.mapM (decode_request_field path (splitOnChar '/' (henc.path.drop 1))
      (form_decode (henc.query.getD [])) henc.headers Bp) = .ok v
  rw [hfinal]
  congr 1
  conv_rhs => rw [hv]
  simp only [request_value]
  exact List.map_congr_left (fun f hf => by rw [hlook f hf])

theorem resp_newtype_body_field_eq_of_unique {schema : ResponseSchema}
    {rf : RawField}
    (hmem : ResponseField.newtypeBody rf ∈ schema.fields)
    (huniq : (schema.fields.filter ResponseField.is_newtype_body).length ≤ 1) :
    schema.newtype_body_field = some rf := by
  obtain ⟨fields⟩ := schema
  simp only [ResponseSchema.newtype_body_field] at *
  induction fields with
  | nil => exact absurd hmem (List.not_mem_nil _)
  | cons f fs ih =>
    rcases List.mem_cons.mp hmem with hm | hm
    · subst hm
      simp [List.findSome?_cons]
    · have hmemtail :
          ResponseField.newtypeBody rf ∈ fs.filter ResponseField.is_newtype_body :=
        List.mem_filter.mpr ⟨hm, by simp [ResponseField.is_newtype_body]⟩
      have htailpos : 1 ≤ (fs.filter ResponseField.is_newtype_body).length :=
        List.length_pos.mpr (List.ne_nil_of_mem hmemtail)
      match f with
      | ResponseField.newtypeBody rf' =>
        exfalso
        rw [List.filter_cons_of_pos (by simp [ResponseField.is_newtype_body])] at huniq
        simp only [List.length_cons] at huniq
        omega
      | ResponseField.body rf' =>
        rw [List.filter_cons_of_neg (by simp [ResponseField.is_newtype_body])] at huniq
        rw [List.findSome?_cons]
        exact ih hm huniq
      | ResponseField.header rf' n =>
        rw [List.filter_cons_of_neg (by simp [ResponseField.is_newtype_body])] at huniq
        rw [List.findSome?_cons]
        exact ih hm huniq

/-- Round trip of the generated response codec pair, for structured values
whose field assignments are clean, whose body mode is well formed, and whose
header names avoid the fixed content-type header the response encoder always
prepends. -/
theorem response_round_trip (schema : ResponseSchema) (val : String → List Char)
    (hnodup : (schema.fields.map ResponseField.field_name).Nodup)
    (hhdr : (schema.fields.filterMap ResponseField.header_name).Nodup)
    (hct : ∀ n ∈ schema.fields.filterMap ResponseField.header_name, n ≠ "CONTENT_TYPE")
    (hmode : resp_body_mode_ok schema = true)
    (hvals : ∀ f ∈ schema.fields, resp_value_clean f (val f.field_name) = true)
    (hnames : ∀ f ∈ schema.fields, name_clean f.field_name = true) :
    decode_response schema (encode_response schema (response_value schema val)) =
      .ok (response_value schema val) := by
  classical
  set w := response_value schema val with hw
  have hwnames : w.map Prod.fst = schema.fields.map ResponseField.field_name := by
    simp [hw, response_value, List.map_map, Function.comp_def]
  have hwnodup : (w.map Prod.fst).Nodup := by rw [hwnames]; exact hnodup
  have hlook : ∀ f ∈ schema.fields, lookupVal w f.field_name = val f.field_name := by
    intro f hf
    exact lookupVal_eq_of_nodup_mem (p := (f.field_name, val f.field_name)) hwnodup
      (by simp only [hw, response_value]; exact List.mem_map_of_mem _ hf)
  set henc := encode_response schema w with hencdef
  set hlist := schema.fields.filterMap (fun f =>
    match f with
    | ResponseField.header rf name => some (name, lookupVal w rf.name)
    | _ => none) with hhlistdef
  set blist := schema.fields.filterMap (fun f =>
    match f with
    | ResponseField.body rf => some (rf.name, lookupVal w rf.name)
    | _ => none) with hblistdef
  set Bp := (match schema.newtype_body_field with
    | some rf => BodyParsed.newtype (lookupVal w rf.name)
    | none =>
      if schema.has_body_fields then BodyParsed.obj blist else BodyParsed.empty)
    with hBpdef
  have hblist_clean : ∀ p ∈ blist, '"' ∉ p.1.data ∧ '"' ∉ p.2 := by
    intro p hp
    simp only [hblistdef, List.mem_filterMap] at hp
    obtain ⟨f, hf, hsome⟩ := hp
    match f with
    | ResponseField.body rf =>
      simp only [Option.some.injEq] at hsome
      subst hsome
      constructor
      · exact quote_not_mem_of_jsonClean (Bool.and_elim_right (hnames _ hf))
      · show '"' ∉ lookupVal w rf.name
        have hl := hlook _ hf
        simp only [ResponseField.field_name] at hl
        rw [hl]
        exact quote_not_mem_of_jsonClean
          (by have h2 := Bool.and_elim_right (hvals _ hf); simpa [resp_value_clean] using h2)
    | ResponseField.header rf n => simp at hsome
    | ResponseField.newtypeBody rf => simp at hsome
  have hstatus : henc.status = 200 := by simp [hencdef, encode_response]
  have hsucc : is_success henc.status = true := by rw [hstatus]; decide
  have hbody : decode_response_body schema henc.body = .ok Bp := by
    rw [hBpdef]
    rcases hnb : schema.newtype_body_field with _ | rf
    · by_cases hbf : schema.has_body_fields
      · have hmem : ∃ f ∈ schema.fields, f.is_body := by
          simpa [ResponseSchema.has_body_fields, List.any_eq_true] using hbf
        obtain ⟨f, hf, hfb⟩ := hmem
        match f with
        | ResponseField.body rf =>
          have hpmem : (rf.name, lookupVal w rf.name) ∈ blist := by
            simp only [hblistdef, List.mem_filterMap]
            exact ⟨ResponseField.body rf, hf, rfl⟩
          simp only [decode_response_body, hencdef, encode_response, hnb, hbf, if_pos]
          rw [parseJsonObj_print (List.ne_nil_of_mem hpmem) hblist_clean]
        | ResponseField.header rf n => simp [ResponseField.is_body] at hfb
        | ResponseField.newtypeBody rf => simp [ResponseField.is_body] at hfb
      · simp only [decode_response_body, hencdef, encode_response, hnb]
        simp [hbf]
    · have hfmem : ∃ f ∈ schema.fields,
          (match f with
           | ResponseField.newtypeBody rf' => some rf'
           | _ => none) = some rf :=
        List.exists_of_findSome?_eq_some hnb
      obtain ⟨f, hf, hfsome⟩ := hfmem
      match f with
      | ResponseField.newtypeBody rf' =>
        simp only [Option.some.injEq] at hfsome
        rw [hfsome] at hf
        have hjc : '"' ∉ lookupVal w rf.name := by
          have hl := hlook _ hf
          simp only [ResponseField.field_name] at hl
          rw [hl]
          exact quote_not_mem_of_jsonClean
            (by have h2 := Bool.and_elim_right (hvals _ hf); simpa [resp_value_clean] using h2)
        simp only [decode_response_body, hencdef, encode_response, hnb]
        rw [parseJsonNewtype_print hjc]
      | ResponseField.body rf' => simp at hfsome
      | ResponseField.header rf' n => simp at hfsome
  have hpoint : ∀ f ∈ schema.fields,
      decode_response_field Bp henc.headers f =
      .ok (f.field_name, lookupVal w f.field_name) := by
    intro f hf
    match f with
    | ResponseField.body rf =>
      have hbf : schema.has_body_fields = true := by
        simp only [ResponseSchema.has_body_fields, List.any_eq_true]
        exact ⟨_, hf, by simp [ResponseField.is_body]⟩
      have hnbnone : schema.newtype_body_field = none := by
        have h1 := Bool.and_elim_left hmode
        rw [resp_body_mode_ok] at hmode
        rcases hopt : schema.newtype_body_field with _ | rf'
        · rfl
        · rw [hbf] at h1
          rw [hopt] at h1
          simp at h1
      have hBp : Bp = BodyParsed.obj blist := by
        rw [hBpdef, hnbnone, hbf]
        simp
      have hbmem : (rf.name, lookupVal w rf.name) ∈ blist := by
        simp only [hblistdef, List.mem_filterMap]
        exact ⟨ResponseField.body rf, hf, rfl⟩
      have hbnodup : (blist.map Prod.fst).Nodup := by
        refine List.Nodup.sublist ?_ hnodup
        rw [hblistdef]
        apply resp_names_sublist_of_filterMap
        intro f' p hp
        match f' with
        | ResponseField.body rf' =>
          simp only [Option.some.injEq] at hp
          subst hp
          rfl
        | ResponseField.header rf' n => simp at hp
        | ResponseField.newtypeBody rf' => simp at hp
      simp only [decode_response_field, hBp, find?_eq_of_nodup_mem hbnodup hbmem]
      rfl
    | ResponseField.newtypeBody rf =>
      have huniq : (schema.fields.filter ResponseField.is_newtype_body).length ≤ 1 := by
        have h2 := Bool.and_elim_right hmode
        exact of_decide_eq_true h2
      have hnbsome : schema.newtype_body_field = some rf :=
        resp_newtype_body_field_eq_of_unique hf huniq
      have hBp : Bp = BodyParsed.newtype (lookupVal w rf.name) := by
        rw [hBpdef, hnbsome]
      simp only [decode_response_field, hBp]
      rfl
    | ResponseField.header rf name =>
      have hhmem : (name, lookupVal w rf.name) ∈ hlist := by
        simp only [hhlistdef, List.mem_filterMap]
        exact ⟨ResponseField.header rf name, hf, rfl⟩
      have hhnodup : (hlist.map Prod.fst).Nodup := by
        rw [hhlistdef, resp_header_names_eq_filterMap]
        exact hhdr
      have hnamect : name ≠ "CONTENT_TYPE" := by
        apply hct
        rw [List.mem_filterMap]
        exact ⟨ResponseField.header rf name, hf, rfl⟩
      have hhenc : henc.headers = ("CONTENT_TYPE", "application/json".data) :: hlist := by
        simp [hencdef, encode_response, hhlistdef]
      have hvis : (lookupVal w rf.name).all visibleAscii = true := by
        have hl := hlook _ hf
        simp only [ResponseField.field_name] at hl
        rw [hl]
        have h2 := Bool.and_elim_right (hvals _ hf)
        simpa [resp_value_clean] using h2
      have hfind : henc.headers.find? (fun p => p.1 = name) =
          some (name, lookupVal w rf.name) := by
        rw [hhenc,
          List.find?_cons_of_neg _ (by simp only [decide_eq_true_eq]; exact Ne.symm hnamect),
          find?_eq_of_nodup_mem hhnodup hhmem]
      simp only [decode_response_field, hfind, header_to_str, hvis, if_pos]
      rfl
  have hfinal := mapM_eq_ok_map (decode_response_field Bp henc.headers)
    (fun f => (f.field_name, lookupVal w f.field_name)) schema.fields hpoint
  show decode_response schema henc = .ok w
  rw [decode_response, if_pos hsucc, hbody]
  show schema.fields.mapM (decode_response_field Bp henc.headers) = .ok w
  rw [hfinal]
  congr 1
  conv_rhs => rw [hw]
  simp only [response_value]
  exact List.map_congr_left (fun f hf => by rw [hlook f hf])

/-! ## Lemmas: the classification pipeline -/

theorem classify_field_plain {nb : Option RawField} {f : RawField}
    (h : f.attrs = []) :
    classify_field nb f = .ok (.body f, nb) := by
  simp [classify_field, h]
  rfl

theorem except_bind_ok {α β ε : Type} (a : α) (f : α → Except ε β) :
    (Except.ok a >>= f) = f a := rfl

theorem except_bind_error {α β ε : Type} (e : ε) (f : α → Except ε β) :
    ((Except.error e : Except ε α) >>= f) = Except.error e := rfl

theorem classify_field_invalid_word {nb : Option RawField} {f : RawField} {w : String}
    (h : f.attrs = [Meta.word w])
    (hw : w ≠ "body" ∧ w ≠ "path" ∧ w ≠ "query") :
    classify_field nb f =
      .error ⟨[("Invalid #[ruma_api] argument, expected one of `body`, `path`, `query`",
                .identSpan w)]⟩ := by
  obtain ⟨hw1, hw2, hw3⟩ := hw
  simp [classify_field, h, classify_step, hw1, hw2, hw3]
  rfl

theorem classify_fields_cons (nb : Option RawField) (f : RawField) (t : List RawField) :
    classify_fields nb (f :: t) =
      match classify_field nb f with
      | .error e => .error e
      | .ok (rf, nb') =>
        match classify_fields nb' t with
        | .error e => .error e
        | .ok (rfs, nb'') => .ok (rf :: rfs, nb'') := by
  rcases hcf : classify_field nb f with e | ⟨rf, nb'⟩
  · simp only [classify_fields, hcf, except_bind_error]
  · rcases hct : classify_fields nb' t with e | ⟨rfs, nb''⟩ <;>
      simp only [classify_fields, hcf, except_bind_ok, hct, except_bind_error]

theorem classify_fields_head_error {nb : Option RawField} {f : RawField}
    {t : List RawField} {e : SynError} (hf : classify_field nb f = .error e) :
    classify_fields nb (f :: t) = .error e := by
  rw [classify_fields_cons, hf]

theorem classify_fields_head_ok {nb nb' : Option RawField} {f : RawField}
    {rf : RequestField} (hf : classify_field nb f = .ok (rf, nb'))
    {t : List RawField} {e : SynError} (ht : classify_fields nb' t = .error e) :
    classify_fields nb (f :: t) = .error e := by
  rw [classify_fields_cons, hf]
  simp only [ht]

theorem classify_fields_plain_prefix_error {nb : Option RawField}
    {pre : List RawField} (hpre : ∀ f ∈ pre, f.attrs = []) {t : List RawField}
    {e : SynError} (ht : classify_fields nb t = .error e) :
    classify_fields nb (pre ++ t) = .error e := by
  induction pre with
  | nil => simpa using ht
  | cons f fs ih =>
    have ihe := ih (fun g hg => hpre g (by simp [hg]))
    rw [List.cons_append]
    exact classify_fields_head_ok (classify_field_plain (hpre f (by simp))) ihe

theorem request_try_from_classify_error {raw : List RawField} {e : SynError}
    (h : classify_fields none raw = .error e) :
    request_try_from raw = .error e := by
  simp only [request_try_from, h]
  rfl

theorem api_try_from_request_error {m : String} {raw : List RawField} {e : SynError}
    (h : request_try_from raw = .error e) :
    api_try_from m raw = .error e := by
  simp only [api_try_from, h]
  rfl

/-! ## Claims -/

/-- C1 (counterexample): a description with two classification violations
(fields `a` and `b` both carry an unknown attribute word) is rejected with an
error holding exactly one part, which references only the first field's
attribute — the second violation is not reported, so compilation is not the
claimed combined multi-error over every violated invariant. -/
theorem c1_counterexample :
    api_try_from "GET" [⟨"a", [Meta.word "foo"]⟩, ⟨"b", [Meta.word "bar"]⟩] =
      .error ⟨[("Invalid #[ruma_api] argument, expected one of `body`, `path`, `query`",
                Span.identSpan "foo")]⟩ ∧
    ([("Invalid #[ruma_api] argument, expected one of `body`, `path`, `query`",
       Span.identSpan "foo")] : List (String × Span)).length = 1 :=
  ⟨rfl, rfl⟩

/-- C1 (amended): validation is fail-fast across invariant categories — a
classification error on one field makes compilation report exactly that
single error, regardless of any further violations in the remaining fields,
and the same single error is the whole compile result (so no artifact is
emitted); only the GET/body check (C6) ever combines several violations. -/
theorem c1_first_error_only (m : String) (pre : List RawField) (bad : RawField)
    (rest : List RawField) (w : String)
    (hpre : ∀ f ∈ pre, f.attrs = [])
    (hbad : bad.attrs = [Meta.word w])
    (hw : w ≠ "body" ∧ w ≠ "path" ∧ w ≠ "query") :
    request_try_from (pre ++ bad :: rest) =
      .error ⟨[("Invalid #[ruma_api] argument, expected one of `body`, `path`, `query`",
                .identSpan w)]⟩ ∧
    api_try_from m (pre ++ bad :: rest) =
      .error ⟨[("Invalid #[ruma_api] argument, expected one of `body`, `path`, `query`",
                .identSpan w)]⟩ := by
  have hbc : classify_field none bad =
      .error ⟨[("Invalid #[ruma_api] argument, expected one of `body`, `path`, `query`",
                .identSpan w)]⟩ := classify_field_invalid_word hbad hw
  have hcf := classify_fields_plain_prefix_error hpre
    (classify_fields_head_error hbc (t := rest))
  have h1 := request_try_from_classify_error hcf
  exact ⟨h1, api_try_from_request_error h1⟩

/-- C1 (witness): with a well-formed field before it and a second violating
field after it, the single reported error references only the first
violation. -/
theorem c1_witness :
    request_try_from [⟨"x", []⟩, ⟨"a", [Meta.word "foo"]⟩, ⟨"b", [Meta.word "bar"]⟩] =
      .error ⟨[("Invalid #[ruma_api] argument, expected one of `body`, `path`, `query`",
                .identSpan "foo")]⟩ ∧
    api_try_from "GET" [⟨"x", []⟩, ⟨"a", [Meta.word "foo"]⟩, ⟨"b", [Meta.word "bar"]⟩] =
      .error ⟨[("Invalid #[ruma_api] argument, expected one of `body`, `path`, `query`",
                .identSpan "foo")]⟩ :=
  c1_first_error_only "GET" [⟨"x", []⟩] ⟨"a", [Meta.word "foo"]⟩
    [⟨"b", [Meta.word "bar"]⟩] "foo" (by decide) rfl (by decide)

/-- C6 (counterexample): a GET endpoint declaring both a regular body field
(`foo`, unannotated) and a newtype body field (`bar`) fails with the single
newtype/body-exclusivity error spanning the `request` keyword — not with the
claimed combined error listing each offending field. -/
theorem c6_counterexample :
    api_try_from "GET" [⟨"foo", []⟩, ⟨"bar", [Meta.word "body"]⟩] =
      .error ⟨[("Can't have both a newtype body field and regular body fields",
                Span.kwSpan "request")]⟩ :=
  rfl

/-- C6 (amended): whenever the request section itself converts successfully
(which excludes mixing regular and newtype body fields) and the method is
GET with body or newtype-body fields present, compilation fails with one
combined error holding exactly one part per offending body field, in
declaration order, plus one part for the newtype body field if present. -/
theorem c6_get_combined_error (raw : List RawField) (req : Request)
    (hreq : request_try_from raw = .ok req)
    (hviol : (req.has_body_fields || req.newtype_body_field.isSome) = true) :
    api_try_from "GET" raw =
      .error ⟨req.body_fields.map (fun f => (getBodyMsg, Span.fieldSpan f.name)) ++
        (match req.newtype_body_field with
         | some f => [(getBodyMsg, Span.fieldSpan f.name)]
         | none => [])⟩ := by
  simp only [api_try_from, hreq, except_bind_ok]
  simp [hviol]

/-- C6 (witness): a GET endpoint with two unannotated (body) fields fails
with the combined error naming both fields. -/
theorem c6_witness :
    api_try_from "GET" [⟨"a", []⟩, ⟨"b", []⟩] =
      .error ⟨[(getBodyMsg, Span.fieldSpan "a"), (getBodyMsg, Span.fieldSpan "b")]⟩ :=
  c6_get_combined_error [⟨"a", []⟩, ⟨"b", []⟩]
    ⟨[.body ⟨"a", []⟩, .body ⟨"b", []⟩]⟩ rfl rfl

/-- C7 (counterexample): classification of a field annotated with the word
`body` is not a pure function of that field's own annotation — when an
earlier field was already classified as the newtype body, the same
annotation yields the duplicate-newtype-body error instead of Kind
NewtypeBody. -/
theorem c7_counterexample :
    classify_field (some ⟨"prev", [Meta.word "body"]⟩) ⟨"f", [Meta.word "body"]⟩ =
      .error ⟨[("There can only be one newtype body field", Span.fieldSpan "f"),
               ("Previous newtype body field", Span.fieldSpan "prev")]⟩ :=
  rfl

/-- C7 (amended): classification is a pure function of the field's
zero-or-one annotation and of whether an earlier field was already
classified NewtypeBody: no annotation yields Body; the word `body` yields
NewtypeBody when no newtype body field was seen before; `path` yields Path;
`query` yields Query; `header = name` yields Header(name); a name/value pair
with any other key is a classification error; once one field-kind attribute
is resolved, any second attribute is a classification error; and an unknown
word is a classification error. -/
theorem c7_classification (nb : Option RawField) (n hdr k hv w : String)
    (a2 : Meta) (rest : List Meta)
    (hk : k ≠ "header")
    (hw : w ≠ "body" ∧ w ≠ "path" ∧ w ≠ "query") :
    classify_field nb ⟨n, []⟩ = .ok (.body ⟨n, []⟩, nb) ∧
    classify_field none ⟨n, [Meta.word "body"]⟩ =
      .ok (.newtypeBody ⟨n, [Meta.word "body"]⟩, some ⟨n, [Meta.word "body"]⟩) ∧
    classify_field nb ⟨n, [Meta.word "path"]⟩ =
      .ok (.path ⟨n, [Meta.word "path"]⟩, nb) ∧
    classify_field nb ⟨n, [Meta.word "query"]⟩ =
      .ok (.query ⟨n, [Meta.word "query"]⟩, nb) ∧
    classify_field nb ⟨n, [Meta.nameValue "header" hdr]⟩ =
      .ok (.header ⟨n, [Meta.nameValue "header" hdr]⟩ hdr, nb) ∧
    classify_field nb ⟨n, [Meta.nameValue k hv]⟩ =
      .error ⟨[("Invalid #[ruma_api] argument with value, expected `header`",
                .identSpan k)]⟩ ∧
    classify_field nb ⟨n, Meta.word "path" :: a2 :: rest⟩ =
      .error ⟨[("There can only be one field kind attribute", .attrSpan n a2)]⟩ ∧
    classify_field nb ⟨n, [Meta.word w]⟩ =
      .error ⟨[("Invalid #[ruma_api] argument, expected one of `body`, `path`, `query`",
                .identSpan w)]⟩ := by
  refine ⟨?_, ?_, ?_, ?_, ?_, ?_, ?_, ?_⟩
  · exact classify_field_plain rfl
  · rfl
  · rfl
  · rfl
  · rfl
  · simp [classify_field, classify_step, hk]
    rfl
  · simp [classify_field, classify_step, List.foldlM_cons]
    rfl
  · exact classify_field_invalid_word rfl hw

/-- C7 (witness): the classification table evaluated at concrete inputs. -/
theorem c7_witness :
    classify_field none ⟨"f", []⟩ = .ok (.body ⟨"f", []⟩, none) ∧
    classify_field none ⟨"f", [Meta.word "body"]⟩ =
      .ok (.newtypeBody ⟨"f", [Meta.word "body"]⟩, some ⟨"f", [Meta.word "body"]⟩) ∧
    classify_field none ⟨"f", [Meta.word "path"]⟩ =
      .ok (.path ⟨"f", [Meta.word "path"]⟩, none) ∧
    classify_field none ⟨"f", [Meta.word "query"]⟩ =
      .ok (.query ⟨"f", [Meta.word "query"]⟩, none) ∧
    classify_field none ⟨"f", [Meta.nameValue "header" "X_A"]⟩ =
      .ok (.header ⟨"f", [Meta.nameValue "header" "X_A"]⟩ "X_A", none) ∧
    classify_field none ⟨"f", [Meta.nameValue "wrong" "X_A"]⟩ =
      .error ⟨[("Invalid #[ruma_api] argument with value, expected `header`",
                .identSpan "wrong")]⟩ ∧
    classify_field none ⟨"f", [Meta.word "path", Meta.word "query"]⟩ =
      .error ⟨[("There can only be one field kind attribute",
                .attrSpan "f" (Meta.word "query"))]⟩ ∧
    classify_field none ⟨"f", [Meta.word "bogus"]⟩ =
      .error ⟨[("Invalid #[ruma_api] argument, expected one of `body`, `path`, `query`",
                .identSpan "bogus")]⟩ :=
  c7_classification none "f" "X_A" "wrong" "X_A" "bogus" (Meta.word "query") []
    (by decide) (by decide)

/-- C8: a request section declaring two fields annotated as the newtype body
fails with one error holding two parts: the duplicate message spanning the
second offending field and the previous-field message spanning the first,
regardless of any plainly-classified fields around them. -/
theorem c8_two_newtype_body_fields (l1 l2 rest : List RawField) (n1 n2 : String)
    (h1 : ∀ f ∈ l1, f.attrs = [])
    (h2 : ∀ f ∈ l2, f.attrs = []) :
    request_try_from
        (l1 ++ ⟨n1, [Meta.word "body"]⟩ :: (l2 ++ ⟨n2, [Meta.word "body"]⟩ :: rest)) =
      .error ⟨[("There can only be one newtype body field", .fieldSpan n2),
               ("Previous newtype body field", .fieldSpan n1)]⟩ := by
  apply request_try_from_classify_error
  apply classify_fields_plain_prefix_error h1
  have hc1 : classify_field none ⟨n1, [Meta.word "body"]⟩ =
      .ok (.newtypeBody ⟨n1, [Meta.word "body"]⟩, some ⟨n1, [Meta.word "body"]⟩) := rfl
  apply classify_fields_head_ok hc1
  apply classify_fields_plain_prefix_error h2
  apply classify_fields_head_error
  rfl

/-- C8 (witness): two `body`-annotated fields with a plain field between
them produce the two-part error naming both fields. -/
theorem c8_witness :
    request_try_from [⟨"x", []⟩, ⟨"a", [Meta.word "body"]⟩, ⟨"y", []⟩,
        ⟨"b", [Meta.word "body"]⟩] =
      .error ⟨[("There can only be one newtype body field", .fieldSpan "b"),
               ("Previous newtype body field", .fieldSpan "a")]⟩ :=
  c8_two_newtype_body_fields [⟨"x", []⟩] [⟨"y", []⟩] [] "a" "b"
    (by decide) (by decide)

/-- C3 (counterexample): a description with zero Path-kind fields and a path
template holding one placeholder (`/a/:b`, placeholder count 1 ≠ 0 declared
Path fields) compiles successfully — no build-time failure occurs, contrary
to the claim that the mismatch fails compilation also when the Path-field
count is zero. -/
theorem c3_counterexample :
    compile_api "PUT" "/a/:b" [] = .ok ⟨[]⟩ ∧
    placeholder_count "/a/:b" = 1 ∧
    (⟨[]⟩ : Request).path_field_count = 0 :=
  ⟨rfl, rfl, rfl⟩

/-- C3 (amended): the build-time path assertions run only when the request
declares at least one Path-kind field; in that case generation succeeds
exactly when the template starts with `/` and its placeholder count equals
the Path-field count, and with zero Path-kind fields no check is performed
and generation always succeeds. -/
theorem c3_path_placeholder_check (req : Request) (path : String) :
    (req.has_path_fields = true →
      (path_assertions req path = .ok () ↔
        (starts_with_slash path = true ∧ placeholder_count path = req.path_field_count))) ∧
    (req.has_path_fields = false → path_assertions req path = .ok ()) := by
  constructor
  · intro h
    rw [path_assertions, if_pos h]
    constructor
    · intro hok
      by_cases h1 : starts_with_slash path
      · by_cases h2 : placeholder_count path = req.path_field_count
        · exact ⟨h1, h2⟩
        · rw [if_neg (by simp [h1]), if_pos h2] at hok
          exact absurd hok (by simp)
      · rw [if_pos (by simp [h1])] at hok
        exact absurd hok (by simp)
    · rintro ⟨h1, h2⟩
      rw [if_neg (by simp [h1]), if_neg (by simp [h2])]
  · intro h
    rw [path_assertions, h]
    simp

/-- C3 (witness): with one Path field the check accepts a matching template;
with zero Path fields even a template with a placeholder passes unchecked. -/
theorem c3_witness :
    path_assertions ⟨[.path ⟨"b", [Meta.word "path"]⟩]⟩ "/a/:b" = .ok () ∧
    path_assertions ⟨[]⟩ "/a/:b" = .ok () :=
  ⟨((c3_path_placeholder_check ⟨[.path ⟨"b", [Meta.word "path"]⟩]⟩ "/a/:b").1 rfl).mpr
      (by decide),
    (c3_path_placeholder_check ⟨[]⟩ "/a/:b").2 rfl⟩

/-- C4: for every response schema and every incoming raw response whose
status is not a success code, decoding short-circuits into the error
carrying that status code, whatever the headers and the body — in
particular the body is never deserialized, even when it is invalid under
the structured format. -/
theorem c4_error_status_short_circuit (schema : ResponseSchema) (status : Nat)
    (headers : List (String × List Char)) (body : List Char)
    (h : is_success status = false) :
    decode_response schema ⟨status, headers, body⟩ = .error (.httpStatus status) := by
  rw [decode_response]
  simp [h]

/-- C4 (witness): a 404 response with a garbage body on a schema with a body
field yields the status error, not a body-deserialization error. -/
theorem c4_witness :
    decode_response ⟨[.body ⟨"value", []⟩]⟩ ⟨404, [], "not json".data⟩ =
      .error (.httpStatus 404) :=
  c4_error_status_short_circuit ⟨[.body ⟨"value", []⟩]⟩ 404 [] "not json".data
    (by decide)

/-- C5 (counterexample): with no body fields the generated response encoder
emits the two-byte serialization of the empty JSON object, not the claimed
empty byte payload. -/
theorem c5_counterexample :
    (encode_response ⟨[]⟩ []).body = emptyObjChars ∧ emptyObjChars ≠ [] :=
  ⟨rfl, by decide⟩

/-- C5 (amended): in the Empty body mode (no Body-kind and no NewtypeBody
field) the generated request encoder produces an empty byte payload while
the response encoder produces the `"{}"` bytes, and both generated decoders
ignore the incoming payload — decoding is unchanged under any replacement of
the body bytes. -/
theorem c5_empty_body_mode (schema : Request) (rs : ResponseSchema)
    (path method : String) (v w : Assignment) (hr : HttpRequest)
    (hs : List (String × List Char)) (b b' : List Char)
    (hempty : schema.newtype_body_field = none ∧ schema.has_body_fields = false)
    (hrs : rs.newtype_body_field = none ∧ rs.has_body_fields = false) :
    (encode_request schema path method v).body = [] ∧
    (encode_response rs w).body = emptyObjChars ∧
    decode_request schema path { hr with body := b } =
      decode_request schema path { hr with body := b' } ∧
    decode_response rs ⟨200, hs, b⟩ = decode_response rs ⟨200, hs, b'⟩ := by
  obtain ⟨hnb, hbf⟩ := hempty
  obtain ⟨hrnb, hrbf⟩ := hrs
  refine ⟨?_, ?_, ?_, ?_⟩
  · simp [encode_request, hnb, hbf]
  · simp [encode_response, hrnb, hrbf]
  · have hb : ∀ x, decode_request_body schema x = .ok BodyParsed.empty := by
      intro x
      simp [decode_request_body, hnb, hbf]
    unfold decode_request
    rw [hb, hb]
  · have hb : ∀ x, decode_response_body rs x = .ok BodyParsed.empty := by
      intro x
      simp [decode_response_body, hrnb, hrbf]
    rw [decode_response, decode_response, hb, hb]

/-- C5 (witness): the empty-mode equalities at a concrete schema, with two
different body payloads on the decoding side. -/
theorem c5_witness :
    (encode_request ⟨[.query ⟨"q", [Meta.word "query"]⟩]⟩ "/p" "PUT"
        [("q", ['x'])]).body = [] ∧
    (encode_response ⟨[.header ⟨"h", []⟩ "X_H"]⟩ [("h", ['y'])]).body = emptyObjChars ∧
    decode_request ⟨[.query ⟨"q", [Meta.word "query"]⟩]⟩ "/p"
        { method := "PUT", path := "/p".data, query := some "q=x".data,
          headers := [], body := "garbage".data } =
      decode_request ⟨[.query ⟨"q", [Meta.word "query"]⟩]⟩ "/p"
        { method := "PUT", path := "/p".data, query := some "q=x".data,
          headers := [], body := [] } ∧
    decode_response ⟨[.header ⟨"h", []⟩ "X_H"]⟩ ⟨200, [("X_H", ['y'])], "garbage".data⟩ =
      decode_response ⟨[.header ⟨"h", []⟩ "X_H"]⟩ ⟨200, [("X_H", ['y'])], []⟩ :=
  c5_empty_body_mode ⟨[.query ⟨"q", [Meta.word "query"]⟩]⟩ ⟨[.header ⟨"h", []⟩ "X_H"]⟩
    "/p" "PUT" [("q", ['x'])] [("h", ['y'])]
    { method := "PUT", path := "/p".data, query := some "q=x".data,
      headers := [], body := "garbage".data }
    [("X_H", ['y'])] "garbage".data [] ⟨rfl, rfl⟩ ⟨rfl, rfl⟩

/-- C9 (counterexample): the generated request encoder sets no content-type
header at all — for a schema with a body field and no header fields the
outgoing request carries an empty header list, contrary to the claim that
the body content type is fixed to application/json on both the request and
the response side. -/
theorem c9_counterexample :
    (encode_request ⟨[RequestField.body ⟨"foo", []⟩]⟩ "/p" "POST"
        [("foo", ['x'])]).headers = [] :=
  rfl

/-- C9 (amended): only the generated response encoder fixes the content
type — its first header is always `application/json` under the content-type
name, regardless of body mode — while the generated request encoder sets no
content-type header: the content-type name appears among an encoded
request's headers only if the schema itself binds a field to it. -/
theorem c9_content_type (schema : Request) (rs : ResponseSchema)
    (path method : String) (v w : Assignment)
    (hnoct : ∀ f ∈ schema.fields, f.header_name ≠ some "CONTENT_TYPE") :
    (encode_response rs w).headers.head? =
      some ("CONTENT_TYPE", "application/json".data) ∧
    "CONTENT_TYPE" ∉ (encode_request schema path method v).headers.map Prod.fst := by
  constructor
  · rfl
  · intro hmem
    rw [show (encode_request schema path method v).headers =
        schema.fields.filterMap (fun f =>
          match f with
          | RequestField.header rf name => some (name, lookupVal v rf.name)
          | _ => none) from rfl, header_names_eq_filterMap] at hmem
    obtain ⟨f, hf, hsome⟩ := List.mem_filterMap.mp hmem
    exact hnoct f hf hsome

/-- C9 (witness): at a concrete schema with one non-content-type header
field, the response carries the fixed content type and the request does
not. -/
theorem c9_witness :
    (encode_response ⟨[.body ⟨"value", []⟩]⟩ [("value", ['z'])]).headers.head? =
      some ("CONTENT_TYPE", "application/json".data) ∧
    "CONTENT_TYPE" ∉ (encode_request ⟨[.header ⟨"h", []⟩ "X_H", .body ⟨"foo", []⟩]⟩
        "/p" "POST" [("h", ['y']), ("foo", ['x'])]).headers.map Prod.fst :=
  c9_content_type ⟨[.header ⟨"h", []⟩ "X_H", .body ⟨"foo", []⟩]⟩ ⟨[.body ⟨"value", []⟩]⟩
    "/p" "POST" [("h", ['y']), ("foo", ['x'])] [("value", ['z'])] (by decide)

/-- C10: generated request header decoding takes the header value verbatim
as an owned string without parsing it into the field's type, and collapses
both failure cases into one error — a present header whose raw value is not
visible ASCII yields exactly the same missing-field error as an entirely
absent header, so no distinct header-parse error exists. -/
theorem c10_header_decode (headers absent : List (String × List Char))
    (name : String) (val : List Char)
    (hfound : headers.find? (fun p => p.1 = name) = some (name, val))
    (habsent : absent.find? (fun p => p.1 = name) = none) :
    (val.all visibleAscii = true →
      parse_header_field headers name = .ok (String.mk val)) ∧
    (val.all visibleAscii = false →
      parse_header_field headers name = .error (.missingField name)) ∧
    parse_header_field absent name = .error (.missingField name) := by
  refine ⟨?_, ?_, ?_⟩
  · intro hv
    rw [parse_header_field, hfound, Option.some_bind]
    simp [header_to_str, hv]
  · intro hv
    rw [parse_header_field, hfound, Option.some_bind]
    simp [header_to_str, hv]
  · rw [parse_header_field, habsent]
    rfl

/-- C10 (witness): a header whose value holds a non-visible byte (0x07)
decodes to the same missing-field error as the header being absent. -/
theorem c10_witness :
    (([Char.ofNat 7].all visibleAscii) = true →
      parse_header_field [("X_H", [Char.ofNat 7])] "X_H" =
        .ok (String.mk [Char.ofNat 7])) ∧
    (([Char.ofNat 7].all visibleAscii) = false →
      parse_header_field [("X_H", [Char.ofNat 7])] "X_H" =
        .error (.missingField "X_H")) ∧
    parse_header_field [] "X_H" = .error (.missingField "X_H") :=
  c10_header_decode [("X_H", [Char.ofNat 7])] [] "X_H" [Char.ofNat 7] rfl rfl

/-- C2 (counterexample): a schema that passes validation may still break the
round-trip law even though every field value is a plain ASCII string free of
reserved characters: with two Header-kind fields bound to the same header
name, encoding appends both values but decoding reads the first match for
both fields, so `decode (encode x) ≠ x`. -/
theorem c2_counterexample :
    request_try_from [⟨"f1", [Meta.nameValue "header" "X_THING"]⟩,
        ⟨"f2", [Meta.nameValue "header" "X_THING"]⟩] =
      .ok ⟨[.header ⟨"f1", [Meta.nameValue "header" "X_THING"]⟩ "X_THING",
            .header ⟨"f2", [Meta.nameValue "header" "X_THING"]⟩ "X_THING"]⟩ ∧
    decode_request
        ⟨[.header ⟨"f1", [Meta.nameValue "header" "X_THING"]⟩ "X_THING",
          .header ⟨"f2", [Meta.nameValue "header" "X_THING"]⟩ "X_THING"]⟩ "/x"
        (encode_request
          ⟨[.header ⟨"f1", [Meta.nameValue "header" "X_THING"]⟩ "X_THING",
            .header ⟨"f2", [Meta.nameValue "header" "X_THING"]⟩ "X_THING"]⟩ "/x" "PUT"
          [("f1", ['a']), ("f2", ['b'])]) =
      .ok [("f1", ['a']), ("f2", ['a'])] ∧
    ([("f1", ['a']), ("f2", ['a'])] : Assignment) ≠ [("f1", ['a']), ("f2", ['b'])] :=
  ⟨rfl, rfl, by decide⟩

/-- C2 (amended): the round-trip law `decode (encode x) = x` holds for both
the request and the response codec pair on every schema and clean field
assignment provided additionally that the Header-kind fields bind pairwise
distinct header names (and, on the response side, names distinct from the
fixed content-type header the encoder prepends): values are ASCII and free
of the reserved characters of their destination (visible ASCII for headers,
no `"`/`\` where the value lands in JSON), field names are ASCII and
JSON-safe and pairwise distinct, the body mode is well formed, the template
is ASCII and every Path field has a matching placeholder. -/
theorem c2_round_trip (schema : Request) (rs : ResponseSchema)
    (path method : String) (val wval : String → List Char)
    (hnodup : (schema.fields.map RequestField.field_name).Nodup)
    (hhdr : (schema.fields.filterMap RequestField.header_name).Nodup)
    (hmode : body_mode_ok schema = true)
    (hpath_ascii : asciiClean path.data = true)
    (hplace : schema.fields.all (fun f =>
      match f with
      | RequestField.path rf =>
        decide (rf.name ∈ (placeholder_positions path).map Prod.snd)
      | _ => true) = true)
    (hvals : ∀ f ∈ schema.fields, field_value_clean f (val f.field_name) = true)
    (hnames : ∀ f ∈ schema.fields, name_clean f.field_name = true)
    (rnodup : (rs.fields.map ResponseField.field_name).Nodup)
    (rhdr : (rs.fields.filterMap ResponseField.header_name).Nodup)
    (rct : ∀ n ∈ rs.fields.filterMap ResponseField.header_name, n ≠ "CONTENT_TYPE")
    (rmode : resp_body_mode_ok rs = true)
    (rvals : ∀ f ∈ rs.fields, resp_value_clean f (wval f.field_name) = true)
    (rnames : ∀ f ∈ rs.fields, name_clean f.field_name = true) :
    decode_request schema path
        (encode_request schema path method (request_value schema val)) =
      .ok (request_value schema val) ∧
    decode_response rs (encode_response rs (response_value rs wval)) =
      .ok (response_value rs wval) :=
  ⟨request_round_trip schema path method val hnodup hhdr hmode hpath_ascii
      hplace hvals hnames,
    response_round_trip rs wval rnodup rhdr rct rmode rvals rnames⟩

/-- C2 (witness): the round-trip law at the spec's example endpoint — body
field `foo`, content-type header field, query field `bar`, path field `baz`
on template `/_matrix/some/endpoint/:baz` — and at a response schema with a
location header field and a newtype body field, exercising the newtype
response body mode. -/
theorem c2_witness :
    decode_request
        ⟨[.body ⟨"foo", []⟩,
          .header ⟨"content_type", [Meta.nameValue "header" "CONTENT_TYPE"]⟩
            "CONTENT_TYPE",
          .query ⟨"bar", [Meta.word "query"]⟩,
          .path ⟨"baz", [Meta.word "path"]⟩]⟩ "/_matrix/some/endpoint/:baz"
        (encode_request
          ⟨[.body ⟨"foo", []⟩,
            .header ⟨"content_type", [Meta.nameValue "header" "CONTENT_TYPE"]⟩
              "CONTENT_TYPE",
            .query ⟨"bar", [Meta.word "query"]⟩,
            .path ⟨"baz", [Meta.word "path"]⟩]⟩ "/_matrix/some/endpoint/:baz" "GET"
          (request_value
            ⟨[.body ⟨"foo", []⟩,
              .header ⟨"content_type", [Meta.nameValue "header" "CONTENT_TYPE"]⟩
                "CONTENT_TYPE",
              .query ⟨"bar", [Meta.word "query"]⟩,
              .path ⟨"baz", [Meta.word "path"]⟩]⟩
            (fun n => if n = "foo" then "payload".data
              else if n = "content_type" then "text/plain".data
              else if n = "bar" then "hi".data else "42".data))) =
      .ok (request_value
        ⟨[.body ⟨"foo", []⟩,
          .header ⟨"content_type", [Meta.nameValue "header" "CONTENT_TYPE"]⟩
            "CONTENT_TYPE",
          .query ⟨"bar", [Meta.word "query"]⟩,
          .path ⟨"baz", [Meta.word "path"]⟩]⟩
        (fun n => if n = "foo" then "payload".data
          else if n = "content_type" then "text/plain".data
          else if n = "bar" then "hi".data else "42".data)) ∧
    decode_response ⟨[.header ⟨"loc", []⟩ "LOCATION", .newtypeBody ⟨"value", []⟩]⟩
        (encode_response ⟨[.header ⟨"loc", []⟩ "LOCATION", .newtypeBody ⟨"value", []⟩]⟩
          (response_value ⟨[.header ⟨"loc", []⟩ "LOCATION", .newtypeBody ⟨"value", []⟩]⟩
            (fun n => if n = "loc" then "here".data else "ok".data))) =
      .ok (response_value ⟨[.header ⟨"loc", []⟩ "LOCATION", .newtypeBody ⟨"value", []⟩]⟩
        (fun n => if n = "loc" then "here".data else "ok".data)) :=
  c2_round_trip
    ⟨[.body ⟨"foo", []⟩,
      .header ⟨"content_type", [Meta.nameValue "header" "CONTENT_TYPE"]⟩ "CONTENT_TYPE",
      .query ⟨"bar", [Meta.word "query"]⟩,
      .path ⟨"baz", [Meta.word "path"]⟩]⟩
    ⟨[.header ⟨"loc", []⟩ "LOCATION", .newtypeBody ⟨"value", []⟩]⟩
    "/_matrix/some/endpoint/:baz" "GET"
    (fun n => if n = "foo" then "payload".data
      else if n = "content_type" then "text/plain".data
      else if n = "bar" then "hi".data else "42".data)
    (fun n => if n = "loc" then "here".data else "ok".data)
    (by decide) (by decide) (by decide) (by decide) (by decide) (by decide)
    (by decide) (by decide) (by decide) (by decide) (by decide) (by decide)
    (by decide)

end RumaApi
